import Mathlib

/-!
# SMuRF stream data emulator

A shallow embedding of `src/smurf/core/emulators/StreamDataEmulator.cpp` and the
properties of it that the specification states.

The class is embedded as a record of its data members (`Emulator`); every member
function becomes a function from the state before the call to the state after it.
`acceptFrame` additionally returns the frame buffer as the call leaves it and the
list of buffers it handed to `sendFrame`.

Conventions.
* Calls are sequential: the mutex `mtx_` only orders calls, so a locked region is
  embedded as the plain sequence of its statements.
* `std::size_t` is the 64-bit unsigned word; every `size_t` operation that can leave
  the range is written with an explicit `% sizeMod`.
* `fw_t` is a two-byte signed sample and `u_fw_t` its unsigned counterpart; both are
  narrower than `int`, so mixed expressions are evaluated in `int` or `size_t` and
  only the final store reduces the value to the sample range (`toFw`).
* A frame buffer is the list of its bytes; samples are stored little-endian in two's
  complement, the layout of the machine the emulator runs on.
* The logger, the random engine and the Python bindings have no counterpart: log
  calls are dropped and the values the engine draws are an input of the call.
-/

namespace StreamDataEmulator

/-! ## Declarations taken from headers -/

/-- Declarations the emulator uses whose headers are not among the sources. They are
parameters of the embedding. -/
structure Externals where
  /-- The constant `maxAmplitude` of the class header, a `u_fw_t`. -/
  maxAmplitude : Nat
  /-- The constant `SmurfHeaderSize` of the frame header reader, in bytes. -/
  SmurfHeaderSize : Nat
  /-- The function `getNumberChannels` of the frame header reader; it sees the header
  bytes of the frame. -/
  getNumberChannels : List Nat → Nat
  /-- The value of `amplitude_ * std::sin(2 * M_PI * c / p) + offset_`, computed in
  double precision and converted to an integer; the arguments are `amplitude_`, the
  counter `c`, the divisor `p` and `offset_`. -/
  sinSample : Nat → Nat → Nat → Int → Int

/-- Modelled from the spec: the enumeration `SignalType` of the class header, which
is not among the sources. The members are those the spec lists, in its order; `Size`
is the trailing member that `setType` compares with. -/
inductive SignalType where
  | Zeros
  | ChannelNumber
  | Random
  | Square
  | Sawtooth
  | Triangle
  | Sine
  | DropFrame
  | Size
deriving DecidableEq, Repr

/-- The ordinal of a member, `static_cast<int>(m)`. -/
def SignalType.toInt : SignalType → Int
  | .Zeros => 0
  | .ChannelNumber => 1
  | .Random => 2
  | .Square => 3
  | .Sawtooth => 4
  | .Triangle => 5
  | .Sine => 6
  | .DropFrame => 7
  | .Size => 8

/-- The member an integer stands for, `static_cast<SignalType>(v)`; an integer that is
no ordinal stands for no member and matches no `case` of a `switch`. -/
def SignalType.ofInt (v : Int) : Option SignalType :=
  if v = 0 then some .Zeros
  else if v = 1 then some .ChannelNumber
  else if v = 2 then some .Random
  else if v = 3 then some .Square
  else if v = 4 then some .Sawtooth
  else if v = 5 then some .Triangle
  else if v = 6 then some .Sine
  else if v = 7 then some .DropFrame
  else if v = 8 then some .Size
  else none

/-! ## Machine integers -/

/-- Number of values of `std::size_t`. -/
def sizeMod : Nat := 2 ^ 64

/-- Modelled from the spec: the sample type `fw_t` of the class header, which is not
among the sources, is the fixed-width signed sample of the spec and `u_fw_t` its
unsigned version. The width is two bytes: the size check of `acceptFrame` reports the
payload as `numChannels*2` bytes. `fwMod` is the number of values of the type, the
`sampleRange` of the spec. -/
def fwMod : Nat := 2 ^ 16

/-- Conversion of an integer to `fw_t`: the value modulo `fwMod`, as a signed number. -/
def toFw (x : Int) : Int := (x + 32768) % 65536 - 32768

/-- Conversion of an integer to `int`, which is also what `int` arithmetic leaves
when it overflows. -/
def toInt (x : Int) : Int := (x + 2147483648) % 4294967296 - 2147483648

/-- Conversion of an integer to `std::size_t`. -/
def toSize (x : Int) : Nat := (x % (sizeMod : Int)).toNat

/-! ## The emulator state -/

/-- The data members of `StreamDataEmulator` that the member functions read or
write. `type_` is kept as the integer the enumeration value is stored as. -/
structure Emulator where
  disable_ : Bool
  type_ : Int
  amplitude_ : Nat
  offset_ : Int
  period_ : Nat
  periodCounter_ : Nat
  dropFrame_ : Bool
deriving DecidableEq, Repr

/-- The constructor `StreamDataEmulator::StreamDataEmulator()`. -/
def create (E : Externals) : Emulator :=
  { disable_ := true
    type_ := SignalType.Zeros.toInt
    amplitude_ := E.maxAmplitude
    offset_ := 0
    period_ := 1
    periodCounter_ := 0
    dropFrame_ := false }

/-- The member function `setDisable`. -/
def setDisable (s : Emulator) (d : Bool) : Emulator :=
  { s with disable_ := d }

/-- The member function `getDisable`. -/
def getDisable (s : Emulator) : Bool := s.disable_

/-- The member function `setType`: `if (value < static_cast<int>(SignalType::Size))`. -/
def setType (s : Emulator) (value : Int) : Emulator :=
  if value < SignalType.Size.toInt then
    { s with type_ := value, periodCounter_ := 0 }
  else s

/-- The member function `getType`. -/
def getType (s : Emulator) : Int := s.type_

/-- The member function `setAmplitude`: `if ((value) && (value <= maxAmplitude))`. -/
def setAmplitude (E : Externals) (s : Emulator) (value : Nat) : Emulator :=
  if value ≠ 0 ∧ value ≤ E.maxAmplitude then
    { s with amplitude_ := value, periodCounter_ := 0 }
  else s

/-- The member function `getAmplitude`. -/
def getAmplitude (s : Emulator) : Nat := s.amplitude_

/-- The member function `setOffset`. -/
def setOffset (s : Emulator) (value : Int) : Emulator :=
  { s with offset_ := value, periodCounter_ := 0 }

/-- The member function `getOffset`. -/
def getOffset (s : Emulator) : Int := s.offset_

/-- The member function `setPeriod`: `if (value)`. -/
def setPeriod (s : Emulator) (value : Nat) : Emulator :=
  if value ≠ 0 then
    { s with period_ := value, periodCounter_ := 0 }
  else s

/-- The member function `getPeriod`. -/
def getPeriod (s : Emulator) : Nat := s.period_

/-! ## Frame buffers -/

/-- The assignment `dPtr.at(i) = v` of a sample value `v` through the accessor that
starts `SmurfHeaderSize` bytes into the buffer `mem`. -/
def writeSample (E : Externals) (mem : List Nat) (i : Nat) (v : Int) : List Nat :=
  let u := (v % 65536).toNat
  (mem.set (E.SmurfHeaderSize + 2 * i) (u % 256)).set (E.SmurfHeaderSize + 2 * i + 1) (u / 256)

/-- The value of `dPtr.at(i)`, sample `i` of the buffer `mem`. -/
def readSample (E : Externals) (mem : List Nat) (i : Nat) : Int :=
  toFw ((mem.getD (E.SmurfHeaderSize + 2 * i) 0 + 256 * mem.getD (E.SmurfHeaderSize + 2 * i + 1) 0 : Nat) : Int)

/-- The call `std::fill(dPtr.begin(), dPtr.end(), v)` on an accessor of `n` samples. -/
def fill (E : Externals) (mem : List Nat) (v : Int) : Nat → List Nat
  | 0 => mem
  | n + 1 => writeSample E (fill E mem v n) n v

/-! ## The generators -/

/-- The member function `genZeroWave`. -/
def genZeroWave (E : Externals) (mem : List Nat) (n : Nat) : List Nat :=
  fill E mem 0 n

/-- The member function `genChannelNumberWave`: the loop `dPtr.at(i) = i` over the `n`
samples of the accessor. -/
def genChannelNumberWave (E : Externals) (mem : List Nat) : Nat → List Nat
  | 0 => mem
  | n + 1 => writeSample E (genChannelNumberWave E mem n) n (toFw n)

/-- The member function `genRandomWave`: the loop `dPtr.at(i) = static_cast<fw_t>(dis(gen))`;
`draws i` is the number the engine yields for sample `i`. -/
def genRandomWave (E : Externals) (draws : Nat → Int) (mem : List Nat) : Nat → List Nat
  | 0 => mem
  | n + 1 => writeSample E (genRandomWave E draws mem n) n (toFw (draws n))

/-- The statement `if (++periodCounter_ >= 2 * period_) periodCounter_ = 0;` that the
square, sawtooth and triangle generators end their locked region with. -/
def advanceCounter (s : Emulator) : Emulator :=
  let c := (s.periodCounter_ + 1) % sizeMod
  if c ≥ (2 * s.period_) % sizeMod then { s with periodCounter_ := 0 }
  else { s with periodCounter_ := c }

/-- The sample `s` that `genSquareWave` computes. -/
def squareSample (s : Emulator) : Int :=
  if s.periodCounter_ < s.period_ then toFw (-(s.amplitude_ : Int) + s.offset_)
  else toFw ((s.amplitude_ : Int) + s.offset_)

/-- The member function `genSquareWave`. -/
def genSquareWave (E : Externals) (s : Emulator) (mem : List Nat) (n : Nat) :
    Emulator × List Nat :=
  (advanceCounter s, fill E mem (squareSample s) n)

/-- The divisor `2 * period_ - 1` of the sawtooth formula, in `size_t` arithmetic. -/
def sawtoothDivisor (s : Emulator) : Nat :=
  ((2 * s.period_) % sizeMod + sizeMod - 1) % sizeMod

/-- The sample `s` that `getSawtoothWave` computes:
`offset_ + periodCounter_ * amplitude_ / (2 * period_ - 1)`, evaluated in `size_t`. -/
def sawtoothSample (s : Emulator) : Int :=
  toFw (((toSize s.offset_ + (s.periodCounter_ * s.amplitude_) % sizeMod / sawtoothDivisor s)
    % sizeMod : Nat) : Int)

/-- The member function `getSawtoothWave`. -/
def getSawtoothWave (E : Externals) (s : Emulator) (mem : List Nat) (n : Nat) :
    Emulator × List Nat :=
  (advanceCounter s, fill E mem (sawtoothSample s) n)

/-- The divisor `period_` of the triangle formula. -/
def triangleDivisor (s : Emulator) : Nat := s.period_ % sizeMod

/-- The value of `std::abs<fw_t>((periodCounter_) - period_)`: the `size_t` difference
is taken as an `fw_t`, and its magnitude is returned as an `fw_t`. -/
def triangleAbs (s : Emulator) : Int :=
  toFw |toFw (toSize ((s.periodCounter_ : Int) - (s.period_ : Int)) : Int)|

/-- The sample `s` that `genTriangleWave` computes:
`abs * 2 * amplitude_ / period_ - amplitude_ + offset_`; the product is `int`
arithmetic, the division onwards is `size_t` arithmetic. -/
def triangleSample (s : Emulator) : Int :=
  toFw ((toSize ((toSize (toInt (toInt (triangleAbs s * 2) * (s.amplitude_ : Int)))
    / triangleDivisor s : Nat) - (s.amplitude_ : Int) + s.offset_) : Nat) : Int)

/-- The member function `genTriangleWave`. -/
def genTriangleWave (E : Externals) (s : Emulator) (mem : List Nat) (n : Nat) :
    Emulator × List Nat :=
  (advanceCounter s, fill E mem (triangleSample s) n)

/-- The member function `genSinWave`: the counter is incremented inside the formula
and never reset. -/
def genSinWave (E : Externals) (s : Emulator) (mem : List Nat) (n : Nat) :
    Emulator × List Nat :=
  let c := (s.periodCounter_ + 1) % sizeMod
  ({ s with periodCounter_ := c },
   fill E mem (toFw (E.sinSample s.amplitude_ c ((2 * s.period_) % sizeMod) s.offset_)) n)

/-- The member function `genFrameDrop`. -/
def genFrameDrop (s : Emulator) : Emulator :=
  let c := (s.periodCounter_ + 1) % sizeMod
  if c ≥ (2 * s.period_) % sizeMod then { s with dropFrame_ := true, periodCounter_ := 0 }
  else { s with periodCounter_ := c }

/-! ## Frame processing -/

/-- What one call of `acceptFrame` is given besides the emulator. -/
structure Arrival where
  /-- The bytes of the frame; `frame->getPayload()` is their number. -/
  bytes : List Nat
  /-- The result of `ensureSingleBuffer(frame, true)` for this frame. -/
  singleBuffer : Bool
  /-- The numbers the random engine yields during the call, by sample index. -/
  draws : Nat → Int

/-- What one call of `acceptFrame` leaves behind. -/
structure Outcome where
  /-- The emulator after the call. -/
  state : Emulator
  /-- The bytes of the frame buffer after the call. -/
  bytes : List Nat
  /-- The buffers handed to `sendFrame`, in order. -/
  sent : List (List Nat)
deriving DecidableEq, Repr

/-- The channel count `uint32_t numChannels { header->getNumberChannels() }`. -/
def numChannels (E : Externals) (a : Arrival) : Nat :=
  E.getNumberChannels (a.bytes.take E.SmurfHeaderSize) % 2 ^ 32

/-- The integrity check of `acceptFrame`, true when the frame passes:
`SmurfHeaderSize + numChannels * sizeof(fw_t) == frame->getPayload()`. The sum is a
`size_t`; with a 32-bit channel count and a header of a few bytes it cannot leave the
range and is written exactly. -/
def sizeOk (E : Externals) (a : Arrival) : Bool :=
  E.SmurfHeaderSize + numChannels E a * 2 == a.bytes.length

/-- The `switch (type_)` of `acceptFrame`. -/
def dispatch (E : Externals) (s : Emulator) (a : Arrival) : Emulator × List Nat :=
  match SignalType.ofInt s.type_ with
  | some .Zeros => (s, genZeroWave E a.bytes (numChannels E a))
  | some .ChannelNumber => (s, genChannelNumberWave E a.bytes (numChannels E a))
  | some .Random => (s, genRandomWave E a.draws a.bytes (numChannels E a))
  | some .Square => genSquareWave E s a.bytes (numChannels E a)
  | some .Sawtooth => getSawtoothWave E s a.bytes (numChannels E a)
  | some .Triangle => genTriangleWave E s a.bytes (numChannels E a)
  | some .Sine => genSinWave E s a.bytes (numChannels E a)
  | some .DropFrame => (genFrameDrop s, a.bytes)
  | some .Size => (s, a.bytes)
  | none => (s, a.bytes)

/-- The end of `acceptFrame`: a set drop flag is cleared and the frame is not sent;
otherwise the frame is sent. -/
def finish (s : Emulator) (mem : List Nat) : Outcome :=
  if s.dropFrame_ then ⟨{ s with dropFrame_ := false }, mem, []⟩
  else ⟨s, mem, [mem]⟩

/-- The member function `acceptFrame`. -/
def acceptFrame (E : Externals) (s : Emulator) (a : Arrival) : Outcome :=
  if s.disable_ = false then
    if a.singleBuffer = false then ⟨s, a.bytes, []⟩
    else if sizeOk E a = false then ⟨s, a.bytes, []⟩
    else finish (dispatch E s a).1 (dispatch E s a).2
  else finish s a.bytes

/-- The outcomes of the calls of `acceptFrame` for a sequence of frames, one after the
other. -/
def feed (E : Externals) (s : Emulator) : List Arrival → List Outcome
  | [] => []
  | a :: as => acceptFrame E s a :: feed E (acceptFrame E s a).state as

/-- The emulator after a sequence of frames. -/
def after (E : Externals) (s : Emulator) : List Arrival → Emulator
  | [] => s
  | a :: as => after E (acceptFrame E s a).state as

/-- The states the emulator can be in: the constructed one, and every state a member
function call leaves, its arguments being values of their C++ types. -/
inductive Reachable (E : Externals) : Emulator → Prop
  | create : Reachable E (create E)
  | setDisable (s : Emulator) (d : Bool) : Reachable E s → Reachable E (setDisable s d)
  | setType (s : Emulator) (value : Int) :
      -2147483648 ≤ value → value < 2147483648 → Reachable E s →
      Reachable E (setType s value)
  | setAmplitude (s : Emulator) (value : Nat) :
      value < fwMod → Reachable E s → Reachable E (setAmplitude E s value)
  | setOffset (s : Emulator) (value : Int) :
      -32768 ≤ value → value < 32768 → Reachable E s → Reachable E (setOffset s value)
  | setPeriod (s : Emulator) (value : Nat) :
      value < sizeMod → Reachable E s → Reachable E (setPeriod s value)
  | acceptFrame (s : Emulator) (a : Arrival) :
      Reachable E s → Reachable E (acceptFrame E s a).state

/-! ## Vocabulary of the statements -/

/-- The emulator `s` with its frame period counter at `c`. -/
def withCounter (s : Emulator) (c : Nat) : Emulator :=
  { s with periodCounter_ := c }

/-- The emulator `s` with its drop flag clear. -/
def clearDrop (s : Emulator) : Emulator :=
  { s with dropFrame_ := false }

/-- The signal types whose generator ends with the counter statement of
`advanceCounter`: square, sawtooth, triangle and frame drop. -/
def Periodic (s : Emulator) : Prop :=
  s.type_ = 3 ∨ s.type_ = 4 ∨ s.type_ = 5 ∨ s.type_ = 7

/-- A frame that `acceptFrame` takes to the generators: it is a single buffer and
passes the size check. -/
def Arrival.good (E : Externals) (a : Arrival) : Prop :=
  a.singleBuffer = true ∧ E.SmurfHeaderSize + numChannels E a * 2 = a.bytes.length

/-- The two bytes of sample `i` of the buffer `mem`, read as an unsigned number. -/
def readWord (E : Externals) (mem : List Nat) (i : Nat) : Nat :=
  mem.getD (E.SmurfHeaderSize + 2 * i) 0 + 256 * mem.getD (E.SmurfHeaderSize + 2 * i + 1) 0

/-- The loop that assigns `f i` to `dPtr.at(i)` for the `n` samples of the accessor;
the write of every generator is of this shape. -/
def writeEach (E : Externals) (mem : List Nat) (f : Nat → Int) : Nat → List Nat
  | 0 => mem
  | n + 1 => writeSample E (writeEach E mem f n) n (f n)

/-- The byte that the sample value `v` leaves at place `b` of its slot, the low byte at
place 0 and the high byte at place 1. -/
def sampleByte (v : Int) (b : Nat) : Nat :=
  if b = 0 then (v % 65536).toNat % 256 else (v % 65536).toNat / 256

/-- The values that the generator of the emulator `s` writes, by sample index, for the
signal types that write from the configuration and the counter alone. -/
def waveValue (E : Externals) (s : Emulator) (i : Nat) : Int :=
  match SignalType.ofInt s.type_ with
  | some .Zeros => 0
  | some .ChannelNumber => toFw i
  | some .Square => squareSample s
  | some .Sawtooth => sawtoothSample s
  | some .Triangle => triangleSample s
  | some .Sine =>
    toFw (E.sinSample s.amplitude_ ((s.periodCounter_ + 1) % sizeMod)
      ((2 * s.period_) % sizeMod) s.offset_)
  | _ => 0

/-! ## A concrete installation -/

/-- An integer stand-in for `sinSample`, by the rational approximation
`sin x ≈ 16 x (π - x) / (5 π² - 4 x (π - x))` on a half wave. -/
def sinApprox (amplitude c p : Nat) (offset : Int) : Int :=
  let r := c % p
  let h := if 2 * r ≤ p then r else r - p / 2
  let t := h * (p - 2 * h)
  let m := amplitude * (32 * t) / (5 * p * p - 8 * t)
  if 2 * r ≤ p then (m : Int) + offset else -(m : Int) + offset

/-- A concrete choice of the external declarations, used to evaluate the embedding:
a 128-byte header with the channel count in bytes 4 to 7, and the largest positive
sample as the largest amplitude. -/
def bench : Externals :=
  { maxAmplitude := 32767
    SmurfHeaderSize := 128
    getNumberChannels := fun h =>
      h.getD 4 0 + 256 * h.getD 5 0 + 65536 * h.getD 6 0 + 16777216 * h.getD 7 0
    sinSample := sinApprox }

/-- A frame for `bench` with `n` channels (`n < 256`) whose payload and remaining
header bytes hold `b`. -/
def benchFrame (n b : Nat) : Arrival :=
  { bytes := [b, b, b, b, n, 0, 0, 0] ++ List.replicate (120 + 2 * n) b
    singleBuffer := true
    draws := fun _ => 0 }


/-- An empty frame: no header, no samples. -/
def emptyFrame : Arrival :=
  { bytes := [], singleBuffer := true, draws := fun _ => 0 }

/-- An enabled emulator for `bench` in the configuration given. -/
def configured (type : Int) (amplitude : Nat) (offset : Int) (period : Nat) : Emulator :=
  { disable_ := false
    type_ := type
    amplitude_ := amplitude
    offset_ := offset
    period_ := period
    periodCounter_ := 0
    dropFrame_ := false }

/-- An emulator for `bench` that has run a frame drop cycle and was disabled again:
constructed, enabled, set to DropFrame, given two frames, disabled. -/
def idleAfterDrop : Emulator :=
  setDisable
    (acceptFrame bench
      (acceptFrame bench (setType (setDisable (create bench) false) 7) (benchFrame 3 5)).state
      (benchFrame 3 5)).state
    true

/-- An emulator for `bench` in the middle of a square wave: constructed, enabled, set
to Square, given one frame. -/
def midSquare : Emulator :=
  (acceptFrame bench (setType (setDisable (create bench) false) 3) (benchFrame 3 5)).state

/-- An emulator for `bench` that has generated two frames of a sine: constructed,
enabled, set to Sine, given two frames. -/
def twoSines : Emulator :=
  (acceptFrame bench
    (acceptFrame bench (setType (setDisable (create bench) false) 6) (benchFrame 3 5)).state
    (benchFrame 3 5)).state

/-- A frame for `bench` with `n` channels (`n < 256`), a header that is zero but for the
channel count, and the payload bytes given. -/
def payloadFrame (n : Nat) (payload : List Nat) : Arrival :=
  { bytes := [0, 0, 0, 0, n, 0, 0, 0] ++ List.replicate 120 0 ++ payload
    singleBuffer := true
    draws := fun _ => 0 }

/-- An emulator for `bench` set to drop frames with period `2 ^ 63`: constructed,
`setPeriod(2 ^ 63)`, `setType(7)`, enabled. -/
def dropAlways : Emulator :=
  setDisable (setType (setPeriod (create bench) (2 ^ 63)) 7) false

/-- An emulator for `bench` set to a triangle of period 3: constructed, `setPeriod(3)`,
`setAmplitude(10)`, `setType(5)`, enabled. -/
def triangleReady : Emulator :=
  setDisable (setType (setAmplitude bench (setPeriod (create bench) 3) 10) 5) false

/-- An emulator for `bench` in the middle of a frame drop cycle of period 1:
constructed, enabled, set to DropFrame, given one frame. -/
def midDrop : Emulator :=
  (acceptFrame bench (setType (setDisable (create bench) false) 7) (benchFrame 3 5)).state

/-- An emulator for `bench` whose type is no member of `SignalType`: constructed,
enabled, `setType(-1)`. -/
def badType : Emulator :=
  setType (setDisable (create bench) false) (-1)

/-- The samples `0 .. n-1` of a buffer, as `bench` lays them out. -/
def channels (mem : List Nat) (n : Nat) : List Int :=
  (List.range n).map (readSample bench mem)

/-! ## Frame buffers: reading back what was written -/

theorem writeSample_length (E : Externals) (mem : List Nat) (i : Nat) (v : Int) :
    (writeSample E mem i v).length = mem.length := by
  simp [writeSample]

theorem fill_length (E : Externals) (mem : List Nat) (v : Int) (n : Nat) :
    (fill E mem v n).length = mem.length := by
  induction n with
  | zero => rfl
  | succ n ih => simp [fill, writeSample_length, ih]

theorem toFw_toFw (x : Int) : toFw (toFw x) = toFw x := by
  unfold toFw; omega

theorem toFw_of_range (x : Int) (h1 : -32768 ≤ x) (h2 : x < 32768) : toFw x = x := by
  unfold toFw; omega

theorem readSample_writeSample_same (E : Externals) (mem : List Nat) (i : Nat) (v : Int)
    (h : E.SmurfHeaderSize + 2 * i + 1 < mem.length) :
    readSample E (writeSample E mem i v) i = toFw v := by
  unfold readSample writeSample
  simp only [List.getD_eq_getElem?_getD, List.getElem?_set]
  simp [h, show E.SmurfHeaderSize + 2 * i < mem.length by omega]
  unfold toFw; omega

theorem readSample_writeSample_other (E : Externals) (mem : List Nat) (i j : Nat) (v : Int)
    (h : i ≠ j) :
    readSample E (writeSample E mem j v) i = readSample E mem i := by
  unfold readSample writeSample
  simp only [List.getD_eq_getElem?_getD, List.getElem?_set]
  have h1 : E.SmurfHeaderSize + 2 * j + 1 ≠ E.SmurfHeaderSize + 2 * i := by omega
  have h2 : E.SmurfHeaderSize + 2 * j ≠ E.SmurfHeaderSize + 2 * i := by omega
  have h3 : E.SmurfHeaderSize + 2 * j + 1 ≠ E.SmurfHeaderSize + 2 * i + 1 := by omega
  have h4 : E.SmurfHeaderSize + 2 * j ≠ E.SmurfHeaderSize + 2 * i + 1 := by omega
  simp [h1, h2, h3, h4]

theorem readSample_fill (E : Externals) (mem : List Nat) (v : Int) (n i : Nat)
    (hi : i < n) (h : E.SmurfHeaderSize + 2 * n ≤ mem.length) :
    readSample E (fill E mem v n) i = toFw v := by
  induction n with
  | zero => omega
  | succ n ih =>
    simp only [fill]
    by_cases hin : i = n
    · subst hin
      apply readSample_writeSample_same
      rw [fill_length]; omega
    · rw [readSample_writeSample_other E _ i n v hin]
      exact ih (by omega) (by omega)


/-! ## Sequences of frames -/

theorem feed_getElem? (E : Externals) (as : List Arrival) (s : Emulator) (k : Nat)
    (a : Arrival) (h : as[k]? = some a) :
    (feed E s as)[k]? = some (acceptFrame E (after E s (as.take k)) a) := by
  induction as generalizing s k with
  | nil => simp at h
  | cons b bs ih =>
    cases k with
    | zero =>
      simp at h
      simp [feed, after, h]
    | succ k =>
      simp at h
      simp [feed, after, ih _ k h]

theorem after_append (E : Externals) (as bs : List Arrival) (s : Emulator) :
    after E s (as ++ bs) = after E (after E s as) bs := by
  induction as generalizing s with
  | nil => rfl
  | cons a as ih => simp [after, ih]


/-! ## One frame through an enabled emulator -/

theorem sizeOk_of_good (E : Externals) (a : Arrival) (h : a.good E) : sizeOk E a = true := by
  simp [sizeOk, h.2]

theorem acceptFrame_enabled (E : Externals) (s : Emulator) (a : Arrival)
    (hen : s.disable_ = false) (ha : a.good E) :
    acceptFrame E s a = finish (dispatch E s a).1 (dispatch E s a).2 := by
  simp [acceptFrame, hen, ha.1, sizeOk_of_good E a ha]

theorem finish_state (s : Emulator) (mem : List Nat) :
    (finish s mem).state = clearDrop s := by
  unfold finish clearDrop
  cases h : s.dropFrame_ <;> simp
  cases s; simp_all

theorem finish_bytes (s : Emulator) (mem : List Nat) : (finish s mem).bytes = mem := by
  unfold finish
  cases h : s.dropFrame_ <;> simp

theorem dispatch_state_periodic (E : Externals) (s : Emulator) (a : Arrival)
    (ht : Periodic s) :
    clearDrop (dispatch E s a).1 = clearDrop (advanceCounter s) := by
  rcases ht with h | h | h | h <;>
    simp [dispatch, h, SignalType.ofInt, genSquareWave, getSawtoothWave, genTriangleWave,
      genFrameDrop, advanceCounter, clearDrop]
  split <;> simp

theorem acceptFrame_state_periodic (E : Externals) (s : Emulator) (a : Arrival)
    (hen : s.disable_ = false) (ha : a.good E) (ht : Periodic s) :
    (acceptFrame E s a).state = clearDrop (advanceCounter s) := by
  rw [acceptFrame_enabled E s a hen ha, finish_state, dispatch_state_periodic E s a ht]

theorem advanceCounter_lt (s : Emulator) (h : s.periodCounter_ + 1 < 2 * s.period_)
    (hP : 2 * s.period_ < sizeMod) :
    advanceCounter s = withCounter s (s.periodCounter_ + 1) := by
  unfold advanceCounter withCounter sizeMod at *
  have h1 : (s.periodCounter_ + 1) % 2 ^ 64 = s.periodCounter_ + 1 := by omega
  have h2 : (2 * s.period_) % 2 ^ 64 = 2 * s.period_ := by omega
  simp only [h1, h2]
  rw [if_neg (by omega)]

theorem advanceCounter_wrap (s : Emulator) (h : s.periodCounter_ + 1 = 2 * s.period_)
    (hP : 2 * s.period_ < sizeMod) :
    advanceCounter s = withCounter s 0 := by
  unfold advanceCounter withCounter sizeMod at *
  have h1 : (s.periodCounter_ + 1) % 2 ^ 64 = s.periodCounter_ + 1 := by omega
  have h2 : (2 * s.period_) % 2 ^ 64 = 2 * s.period_ := by omega
  simp only [h1, h2]
  rw [if_pos (by omega)]

/-- While the counter stays below `2 * period_`, each frame of a periodic signal type
moves it up by one and leaves the configuration alone. -/
theorem after_periodic (E : Externals) (as : List Arrival) (s : Emulator)
    (hen : s.disable_ = false) (ht : Periodic s) (hgood : ∀ a ∈ as, a.good E)
    (hP : 2 * s.period_ < sizeMod) (hlen : s.periodCounter_ + as.length < 2 * s.period_) :
    clearDrop (after E s as) = clearDrop (withCounter s (s.periodCounter_ + as.length)) := by
  induction as generalizing s with
  | nil => cases s; simp [after, withCounter]
  | cons a as ih =>
    have ha := hgood a (by simp)
    simp only [List.length_cons] at hlen
    have hst := acceptFrame_state_periodic E s a hen ha ht
    rw [advanceCounter_lt s (by omega) hP] at hst
    have key := ih (clearDrop (withCounter s (s.periodCounter_ + 1))) hen ht
      (fun b hb => hgood b (by simp [hb])) hP (by simp [clearDrop, withCounter]; omega)
    simp only [after, hst, key]
    simp [clearDrop, withCounter]
    omega


theorem clearDrop_fields (t u : Emulator) (h : clearDrop t = clearDrop u) :
    t.disable_ = u.disable_ ∧ t.type_ = u.type_ ∧ t.amplitude_ = u.amplitude_ ∧
    t.offset_ = u.offset_ ∧ t.period_ = u.period_ ∧ t.periodCounter_ = u.periodCounter_ := by
  cases t; cases u
  simp only [clearDrop, Emulator.mk.injEq] at h
  simp [h]

/-- Inside a cycle of a periodic signal type that starts at counter 0, the frame with
index `k` meets the emulator with the counter at `k` and the configuration as it was. -/
theorem cycle_state (E : Externals) (as : List Arrival) (s : Emulator) (k : Nat)
    (hen : s.disable_ = false) (ht : Periodic s) (hc : s.periodCounter_ = 0)
    (hgood : ∀ a ∈ as, a.good E) (hP : 2 * s.period_ < sizeMod)
    (hk : k < 2 * s.period_) (hlen : k ≤ as.length) :
    clearDrop (after E s (as.take k)) = clearDrop (withCounter s k) := by
  have h := after_periodic E (as.take k) s hen ht
    (fun a ha => hgood a (List.mem_of_mem_take ha)) hP
    (by rw [List.length_take, hc]; omega)
  rw [h, List.length_take, hc]
  congr 2
  omega

/-- A cycle of `2 * period_` frames of a periodic signal type that starts at counter 0
ends at counter 0, with the configuration as it was and the drop flag clear. -/
theorem cycle_end (E : Externals) (as : List Arrival) (s : Emulator)
    (hen : s.disable_ = false) (ht : Periodic s) (hc : s.periodCounter_ = 0)
    (hgood : ∀ a ∈ as, a.good E) (hp : 1 ≤ s.period_) (hP : 2 * s.period_ < sizeMod)
    (hlen : as.length = 2 * s.period_) :
    after E s as = clearDrop s := by
  have hlast : 2 * s.period_ - 1 < as.length := by omega
  have hsplit : as = as.take (2 * s.period_ - 1) ++ [as[2 * s.period_ - 1]] := by
    have h1 := @List.take_succ _ as (2 * s.period_ - 1)
    rw [List.getElem?_eq_getElem hlast] at h1
    have h2 : 2 * s.period_ - 1 + 1 = as.length := by omega
    rw [h2, List.take_length] at h1
    simpa using h1
  have hst := cycle_state E as s (2 * s.period_ - 1) hen ht hc hgood hP (by omega) (by omega)
  obtain ⟨f1, f2, f3, f4, f5, f6⟩ := clearDrop_fields _ _ hst
  simp only [withCounter] at f1 f2 f3 f4 f5 f6
  rw [hsplit, after_append]
  simp only [after]
  rw [acceptFrame_state_periodic E _ _ (by rw [f1]; exact hen)
    (hgood _ (List.getElem_mem _)) (by unfold Periodic at *; rw [f2]; exact ht)]
  rw [advanceCounter_wrap _ (by rw [f5, f6]; omega) (by rw [f5]; exact hP)]
  have h3 : clearDrop (withCounter (after E s (as.take (2 * s.period_ - 1))) 0)
      = withCounter (clearDrop (after E s (as.take (2 * s.period_ - 1)))) 0 := rfl
  rw [h3, hst]
  cases s
  simp only [clearDrop, withCounter] at hc ⊢
  simp [hc]


theorem after_fixed (E : Externals) (as : List Arrival) (s : Emulator)
    (h : ∀ a ∈ as, (acceptFrame E s a).state = s) : after E s as = s := by
  induction as with
  | nil => rfl
  | cons a as ih =>
    simp only [after]
    rw [h a (by simp)]
    exact ih (fun b hb => h b (by simp [hb]))

theorem benchFrame_good (n b : Nat) (hn : n < 256) : (benchFrame n b).good bench := by
  simp [Arrival.good, numChannels, bench, benchFrame]
  omega

/-! ## The drop flag between calls -/

theorem acceptFrame_dropFrame (E : Externals) (s : Emulator) (a : Arrival)
    (h : s.dropFrame_ = false) : (acceptFrame E s a).state.dropFrame_ = false := by
  unfold acceptFrame
  split
  · split
    · exact h
    · split
      · exact h
      · rw [finish_state]; rfl
  · rw [finish_state]; rfl

theorem after_dropFrame (E : Externals) (as : List Arrival) (s : Emulator)
    (h : s.dropFrame_ = false) : (after E s as).dropFrame_ = false := by
  induction as generalizing s with
  | nil => exact h
  | cons a as ih => exact ih _ (acceptFrame_dropFrame E s a h)

theorem clearDrop_of_clear (s : Emulator) (h : s.dropFrame_ = false) : clearDrop s = s := by
  cases s
  simp only [clearDrop] at *
  simp [h]

theorem finish_sent (s : Emulator) (mem : List Nat) (h : s.dropFrame_ = false) :
    (finish s mem).sent = [mem] := by
  unfold finish
  simp [h]

/-- A frame that the square, sawtooth or triangle generator has rewritten is sent on
when the drop flag was clear. -/
theorem wave_sent (E : Externals) (t : Emulator) (a : Arrival)
    (hen : t.disable_ = false) (ha : a.good E) (hd : t.dropFrame_ = false)
    (ht : t.type_ = 3 ∨ t.type_ = 4 ∨ t.type_ = 5) :
    (acceptFrame E t a).sent = [(acceptFrame E t a).bytes] := by
  rw [acceptFrame_enabled E t a hen ha, finish_bytes]
  apply finish_sent
  rcases ht with h | h | h <;>
    simp [dispatch, h, SignalType.ofInt, genSquareWave, getSawtoothWave, genTriangleWave,
      advanceCounter] <;>
    split <;> exact hd

/-! ## C1: the square wave -/

/-- C1, as amended. With the emulator enabled, the type Square, the counter at 0 and a
period `P` with `1 ≤ P` and `2 * P` below the range of `size_t`, processing `2 * P`
frames that are single buffers of the right size leaves, in each of the first `P`
frames, every channel at `offset - amplitude` converted to the sample type, and in
each of the next `P` frames every channel at `offset + amplitude` converted to the
sample type; each frame is sent on as rewritten when the drop flag was clear at the
start. Afterwards the counter is 0 and the configuration is unchanged, so the pattern
repeats. The conversion changes no value that lies in the sample range. -/
theorem square_wave_cycle (E : Externals) (s : Emulator) (as : List Arrival)
    (hen : s.disable_ = false) (hty : s.type_ = SignalType.Square.toInt)
    (hc : s.periodCounter_ = 0)
    (hp : 1 ≤ s.period_) (hP : 2 * s.period_ < sizeMod)
    (hlen : as.length = 2 * s.period_) (hgood : ∀ a ∈ as, a.good E) :
    (∀ k a, as[k]? = some a → ∃ o, (feed E s as)[k]? = some o ∧
      (∀ i, i < numChannels E a → readSample E o.bytes i =
        if k < s.period_ then toFw (s.offset_ - s.amplitude_)
        else toFw (s.offset_ + s.amplitude_))
      ∧ (s.dropFrame_ = false → o.sent = [o.bytes]))
    ∧ after E s as = clearDrop s
    ∧ (after E s as).periodCounter_ = 0
    ∧ (∀ x : Int, -32768 ≤ x → x < 32768 → toFw x = x) := by
  have ht : s.type_ = 3 := hty
  have hper : Periodic s := Or.inl ht
  refine ⟨?_, cycle_end E as s hen hper hc hgood hp hP hlen, ?_, toFw_of_range⟩
  · intro k a hk
    have hkl : k < as.length := (List.getElem?_eq_some.1 hk).1
    have ha : a.good E := hgood a (List.getElem?_mem hk)
    have hst := cycle_state E as s k hen hper hc hgood hP (by omega) (by omega)
    obtain ⟨f1, f2, f3, f4, f5, f6⟩ := clearDrop_fields _ _ hst
    simp only [withCounter] at f1 f2 f3 f4 f5 f6
    refine ⟨_, feed_getElem? E as s k a hk, ?_, fun hd =>
      wave_sent E _ a (by rw [f1]; exact hen) ha (after_dropFrame E _ s hd)
        (Or.inl (by rw [f2]; exact ht))⟩
    intro i hi
    rw [acceptFrame_enabled E _ a (by rw [f1]; exact hen) ha, finish_bytes]
    simp only [dispatch, f2, ht, SignalType.ofInt, genSquareWave]
    simp only [show (3 : Int) = 0 ↔ False by decide, show (3 : Int) = 1 ↔ False by decide,
      show (3 : Int) = 2 ↔ False by decide, if_false, if_true]
    rw [readSample_fill E a.bytes _ _ i hi (by have := ha.2; omega)]
    unfold squareSample
    rw [f3, f4, f5, f6]
    split
    · rw [toFw_toFw]; congr 1; omega
    · rw [toFw_toFw]; congr 1; omega
  · rw [cycle_end E as s hen hper hc hgood hp hP hlen]
    simpa [clearDrop] using hc

set_option maxRecDepth 100000 in
/-- Witness of C1: amplitude 10, offset 0, period 2, frames of 3 channels. The theorem
applies to the four frames of the cycle, and evaluating five frames gives
`[-10, -10, -10]` twice, `[10, 10, 10]` twice and `[-10, -10, -10]` again. -/
theorem square_wave_cycle_witness :
    ((∀ k a, (List.replicate 4 (benchFrame 3 0))[k]? = some a →
        ∃ o, (feed bench (configured 3 10 0 2) (List.replicate 4 (benchFrame 3 0)))[k]? = some o ∧
        (∀ i, i < numChannels bench a → readSample bench o.bytes i =
          if k < 2 then toFw (0 - (10 : Nat)) else toFw (0 + (10 : Nat)))
        ∧ (false = false → o.sent = [o.bytes]))
      ∧ after bench (configured 3 10 0 2) (List.replicate 4 (benchFrame 3 0))
          = clearDrop (configured 3 10 0 2)
      ∧ (after bench (configured 3 10 0 2) (List.replicate 4 (benchFrame 3 0))).periodCounter_ = 0
      ∧ (∀ x : Int, -32768 ≤ x → x < 32768 → toFw x = x))
    ∧ (feed bench (configured 3 10 0 2) (List.replicate 5 (benchFrame 3 0))).map
        (fun o => channels o.bytes 3)
      = [[-10, -10, -10], [-10, -10, -10], [10, 10, 10], [10, 10, 10], [-10, -10, -10]] :=
  ⟨square_wave_cycle bench (configured 3 10 0 2) (List.replicate 4 (benchFrame 3 0))
      rfl rfl rfl (by decide) (by decide) (by decide)
      (fun a ha => by rw [List.eq_of_mem_replicate ha]; exact benchFrame_good 3 0 (by decide)),
    by decide⟩


set_option maxRecDepth 100000 in
/-- Counterexample to C1 as stated. First, with amplitude 1, offset -32768 and period 1
the first frame of the cycle holds 32767 in every channel, which is not
`offset - amplitude = -32769`: the value does not fit the sample type. Second, with
amplitude 10, offset 0 and period `2 ^ 63` the product `2 * period_` is 0 in `size_t`,
the counter never leaves 0, and frame `2 ^ 63 + 1` of the cycle still holds
`offset - amplitude = -10` where the claim has `offset + amplitude = 10`. -/
theorem square_wave_counterexample :
    (channels (acceptFrame bench (configured 3 1 (-32768) 1) (benchFrame 3 0)).bytes 3
        = [32767, 32767, 32767]
      ∧ (-32768 : Int) - 1 ≠ 32767)
    ∧ ((feed bench (configured 3 10 0 (2 ^ 63)) (List.replicate (2 ^ 64) (benchFrame 3 0)))[2 ^ 63]?).map
        (fun o => channels o.bytes 3) = some [-10, -10, -10] := by
  refine ⟨⟨by decide, by decide⟩, ?_⟩
  have hget : (List.replicate (2 ^ 64) (benchFrame 3 0))[2 ^ 63]? = some (benchFrame 3 0) := by
    rw [List.getElem?_replicate, if_pos (by decide)]
  rw [feed_getElem? bench _ _ _ _ hget]
  rw [after_fixed bench _ _ (fun a ha => by
    rw [List.eq_of_mem_replicate (List.mem_of_mem_take ha)]
    decide)]
  decide


/-! ## C2: the frame drop schedule -/

/-- C2, as amended. With the emulator enabled, the type DropFrame, the counter at 0,
the drop flag clear and a period `P` with `1 ≤ P` and `2 * P` below the range of
`size_t`, among `2 * P` frames that are single buffers of the right size the first
`2 * P - 1` are sent on with their bytes as they came and the last one is not sent;
no frame is rewritten, and afterwards the emulator is in the state it started in
(counter 0, drop flag clear), so the schedule repeats. -/
theorem frame_drop_schedule (E : Externals) (s : Emulator) (as : List Arrival)
    (hen : s.disable_ = false) (hty : s.type_ = SignalType.DropFrame.toInt)
    (hc : s.periodCounter_ = 0)
    (hd : s.dropFrame_ = false) (hp : 1 ≤ s.period_) (hP : 2 * s.period_ < sizeMod)
    (hlen : as.length = 2 * s.period_) (hgood : ∀ a ∈ as, a.good E) :
    (∀ k a, as[k]? = some a → ∃ o, (feed E s as)[k]? = some o ∧ o.bytes = a.bytes ∧
      o.sent = if k + 1 < 2 * s.period_ then [a.bytes] else [])
    ∧ after E s as = s := by
  have ht : s.type_ = 7 := hty
  have hper : Periodic s := Or.inr (Or.inr (Or.inr ht))
  refine ⟨?_, ?_⟩
  · intro k a hk
    refine ⟨_, feed_getElem? E as s k a hk, ?_⟩
    have hkl : k < as.length := (List.getElem?_eq_some.1 hk).1
    have ha : a.good E := hgood a (List.getElem?_mem hk)
    have hst := cycle_state E as s k hen hper hc hgood hP (by omega) (by omega)
    rw [clearDrop_of_clear _ (after_dropFrame E _ s hd)] at hst
    rw [hst, acceptFrame_enabled E (clearDrop (withCounter s k)) a hen ha, finish_bytes]
    have ht7 : (clearDrop (withCounter s k)).type_ = 7 := ht
    simp only [dispatch, ht7, SignalType.ofInt]
    simp only [show (7 : Int) = 0 ↔ False by decide, show (7 : Int) = 1 ↔ False by decide,
      show (7 : Int) = 2 ↔ False by decide, show (7 : Int) = 3 ↔ False by decide,
      show (7 : Int) = 4 ↔ False by decide, show (7 : Int) = 5 ↔ False by decide,
      show (7 : Int) = 6 ↔ False by decide, if_false, if_true, true_and]
    unfold genFrameDrop finish
    simp only [clearDrop, withCounter]
    unfold sizeMod at *
    have h1 : (k + 1) % 2 ^ 64 = k + 1 := by omega
    have h2 : (2 * s.period_) % 2 ^ 64 = 2 * s.period_ := by omega
    simp only [h1, h2]
    by_cases hlt : k + 1 < 2 * s.period_
    · have hge : ¬ (2 * s.period_ ≤ k + 1) := by omega
      simp [hlt, hge]
    · have hge : 2 * s.period_ ≤ k + 1 := by omega
      simp [hlt, hge]
  · rw [cycle_end E as s hen hper hc hgood hp hP hlen]
    exact clearDrop_of_clear s hd

set_option maxRecDepth 100000 in
/-- Witness of C2: period 1. The theorem applies to the two frames of the cycle, and
evaluating three frames shows frame 1 sent, frame 2 not sent and frame 3 sent. -/
theorem frame_drop_schedule_witness :
    ((∀ k a, (List.replicate 2 (benchFrame 3 5))[k]? = some a →
        ∃ o, (feed bench (configured 7 10 0 1) (List.replicate 2 (benchFrame 3 5)))[k]? = some o ∧
          o.bytes = a.bytes ∧ o.sent = if k + 1 < 2 * 1 then [a.bytes] else [])
      ∧ after bench (configured 7 10 0 1) (List.replicate 2 (benchFrame 3 5))
          = configured 7 10 0 1)
    ∧ (feed bench (configured 7 10 0 1) (List.replicate 3 (benchFrame 3 5))).map
        (fun o => o.sent)
      = [[(benchFrame 3 5).bytes], [], [(benchFrame 3 5).bytes]] :=
  ⟨frame_drop_schedule bench (configured 7 10 0 1) (List.replicate 2 (benchFrame 3 5))
      rfl rfl rfl rfl (by decide) (by decide) (by decide)
      (fun a ha => by rw [List.eq_of_mem_replicate ha]; exact benchFrame_good 3 5 (by decide)),
    by decide⟩

set_option maxRecDepth 100000 in
/-- Counterexample to C2 as stated: with period `2 ^ 63` the product `2 * period_` is 0
in `size_t`, and already the first frame of the `2 * P` is not sent. -/
theorem frame_drop_counterexample :
    (acceptFrame bench (configured 7 10 0 (2 ^ 63)) (benchFrame 3 5)).sent = []
    ∧ (benchFrame 3 5).good bench
    ∧ 1 ≤ 2 * 2 ^ 63 - 1 :=
  ⟨by decide, benchFrame_good 3 5 (by decide), by decide⟩


/-! ## C3: frames of the wrong size -/

/-- C3, as amended. For every emulator state in which the emulator is enabled and every
frame whose payload length is not `SmurfHeaderSize + numChannels * 2`, `acceptFrame`
sends nothing, leaves every byte of the frame as it came and leaves the emulator
unchanged. -/
theorem missized_frame_rejected (E : Externals) (s : Emulator) (a : Arrival)
    (hen : s.disable_ = false)
    (hsz : a.bytes.length ≠ E.SmurfHeaderSize + numChannels E a * 2) :
    acceptFrame E s a = ⟨s, a.bytes, []⟩ := by
  have h : sizeOk E a = false := by
    simp only [sizeOk, beq_eq_false_iff_ne, ne_eq]
    omega
  simp [acceptFrame, hen, h]

/-- Witness of C3: an enabled emulator and an empty frame. -/
theorem missized_frame_rejected_witness :
    acceptFrame bench (configured 3 10 0 2) emptyFrame
      = ⟨configured 3 10 0 2, emptyFrame.bytes, []⟩ :=
  missized_frame_rejected bench (configured 3 10 0 2) emptyFrame rfl (by decide)

/-- Counterexample to C3 as stated: the emulator as constructed is disabled, and it
sends an empty frame on although the frame is shorter than its header. -/
theorem missized_frame_counterexample :
    emptyFrame.bytes.length ≠ bench.SmurfHeaderSize + numChannels bench emptyFrame * 2
    ∧ (acceptFrame bench (create bench) emptyFrame).sent = [emptyFrame.bytes] := by
  decide

/-! ## C4: the disabled emulator -/

theorem reachable_dropFrame (E : Externals) (s : Emulator) (h : Reachable E s) :
    s.dropFrame_ = false := by
  induction h with
  | create => rfl
  | setDisable s d _ ih => exact ih
  | setType s v _ _ _ ih =>
    unfold setType
    split
    · exact ih
    · exact ih
  | setAmplitude s v _ _ ih =>
    unfold setAmplitude
    split
    · exact ih
    · exact ih
  | setOffset s v _ _ _ ih => exact ih
  | setPeriod s v _ _ ih =>
    unfold setPeriod
    split
    · exact ih
    · exact ih
  | acceptFrame s a _ ih => exact acceptFrame_dropFrame E s a ih

/-- C4. In every reachable state in which the emulator is disabled, `acceptFrame`
applied to any frame sends that frame exactly once, with every byte as it came, and
leaves the whole emulator state (configuration, counter and drop flag) unchanged. -/
theorem disabled_passthrough (E : Externals) (s : Emulator) (a : Arrival)
    (hr : Reachable E s) (hd : s.disable_ = true) :
    acceptFrame E s a = ⟨s, a.bytes, [a.bytes]⟩ := by
  have hdrop := reachable_dropFrame E s hr
  unfold acceptFrame finish
  rw [if_neg (by simp [hd])]
  simp [hdrop]

/-- Witness of C4: an emulator that ran a frame drop cycle and was disabled again,
given an empty frame. -/
theorem disabled_passthrough_witness :
    acceptFrame bench idleAfterDrop emptyFrame
      = ⟨idleAfterDrop, emptyFrame.bytes, [emptyFrame.bytes]⟩ :=
  disabled_passthrough bench idleAfterDrop emptyFrame
    (Reachable.setDisable _ true
      (Reachable.acceptFrame _ _
        (Reachable.acceptFrame _ _
          (Reachable.setType _ 7 (by decide) (by decide)
            (Reachable.setDisable _ false Reachable.create)))))
    rfl

/-! ## C5: the range check of setType -/

set_option maxRecDepth 100000 in
/-- C5 fails on the code: `setType(-1)` passes the range check. On an emulator in the
middle of a square wave (type 3, counter 1) the call stores -1 as the type, which
is the ordinal of no member, and resets the counter. -/
theorem setType_negative_accepted :
    midSquare.type_ = 3 ∧ midSquare.periodCounter_ = 1
    ∧ (setType midSquare (-1)).type_ = -1
    ∧ (setType midSquare (-1)).periodCounter_ = 0
    ∧ SignalType.ofInt (-1) = none := by
  decide

/-! ## C6: rejected amplitudes and periods -/

/-- C6. For every emulator state, `setAmplitude(v)` with `v = 0` or `v > maxAmplitude`
and `setPeriod(0)` leave the whole state as it was, so `getAmplitude()` and
`getPeriod()` return what they returned before the call. -/
theorem rejected_setters_noop (E : Externals) (s : Emulator) (v : Nat)
    (hv : v = 0 ∨ E.maxAmplitude < v) :
    setAmplitude E s v = s ∧ setPeriod s 0 = s
    ∧ getAmplitude (setAmplitude E s v) = getAmplitude s
    ∧ getPeriod (setPeriod s 0) = getPeriod s := by
  have h1 : setAmplitude E s v = s := by
    unfold setAmplitude
    rw [if_neg (by omega)]
  have h2 : setPeriod s 0 = s := by
    unfold setPeriod
    rw [if_neg (by simp)]
  rw [h1, h2]
  exact ⟨rfl, rfl, rfl, rfl⟩

set_option maxRecDepth 100000 in
/-- Witness of C6: amplitude 40000, above the largest amplitude of `bench`, on an
emulator in the middle of a square wave. -/
theorem rejected_setters_noop_witness :
    setAmplitude bench midSquare 40000 = midSquare ∧ setPeriod midSquare 0 = midSquare
    ∧ getAmplitude (setAmplitude bench midSquare 40000) = getAmplitude midSquare
    ∧ getPeriod (setPeriod midSquare 0) = getPeriod midSquare :=
  rejected_setters_noop bench midSquare 40000 (Or.inr (by decide))

/-! ## C7: accepted setters restart the phase -/

/-- C7. For every emulator state and every accepted call of `setType` (an ordinal
`0 ≤ t < 8`), `setAmplitude` (`0 < a ≤ maxAmplitude`), `setOffset` (any offset) or
`setPeriod` (`p > 0`), the value is stored and the counter is 0 right after the call. -/
theorem accepted_setters_reset_counter (E : Externals) (s : Emulator)
    (t : Int) (a : Nat) (o : Int) (p : Nat)
    (_ht0 : 0 ≤ t) (ht : t < 8) (ha0 : 0 < a) (ha : a ≤ E.maxAmplitude) (hp : 0 < p) :
    ((setType s t).periodCounter_ = 0 ∧ (setType s t).type_ = t)
    ∧ ((setAmplitude E s a).periodCounter_ = 0 ∧ (setAmplitude E s a).amplitude_ = a)
    ∧ ((setOffset s o).periodCounter_ = 0 ∧ (setOffset s o).offset_ = o)
    ∧ ((setPeriod s p).periodCounter_ = 0 ∧ (setPeriod s p).period_ = p) := by
  refine ⟨?_, ?_, ⟨rfl, rfl⟩, ?_⟩
  · unfold setType
    rw [if_pos (by simpa [SignalType.toInt] using ht)]
    exact ⟨rfl, rfl⟩
  · unfold setAmplitude
    rw [if_pos ⟨by omega, ha⟩]
    exact ⟨rfl, rfl⟩
  · unfold setPeriod
    rw [if_pos (by omega)]
    exact ⟨rfl, rfl⟩

set_option maxRecDepth 100000 in
/-- Witness of C7: an emulator in the middle of a square wave (counter 1), set to
Sawtooth, to amplitude 10, to offset -5 and to period 7. -/
theorem accepted_setters_reset_counter_witness :
    midSquare.periodCounter_ = 1
    ∧ ((setType midSquare 4).periodCounter_ = 0 ∧ (setType midSquare 4).type_ = 4)
    ∧ ((setAmplitude bench midSquare 10).periodCounter_ = 0
        ∧ (setAmplitude bench midSquare 10).amplitude_ = 10)
    ∧ ((setOffset midSquare (-5)).periodCounter_ = 0 ∧ (setOffset midSquare (-5)).offset_ = -5)
    ∧ ((setPeriod midSquare 7).periodCounter_ = 0 ∧ (setPeriod midSquare 7).period_ = 7) :=
  ⟨by decide, accepted_setters_reset_counter bench midSquare 4 10 (-5) 7
    (by decide) (by decide) (by decide) (by decide) (by decide)⟩


/-! ## What a frame leaves of the configuration -/

theorem ofInt_sine (v : Int) (h : SignalType.ofInt v = some SignalType.Sine) : v = 6 := by
  unfold SignalType.ofInt at h
  split_ifs at h <;> first | assumption | simp at h

theorem advanceCounter_fields (s : Emulator) :
    (advanceCounter s).disable_ = s.disable_ ∧ (advanceCounter s).type_ = s.type_ ∧
    (advanceCounter s).amplitude_ = s.amplitude_ ∧ (advanceCounter s).offset_ = s.offset_ ∧
    (advanceCounter s).period_ = s.period_ := by
  unfold advanceCounter
  simp only []
  split <;> exact ⟨rfl, rfl, rfl, rfl, rfl⟩

theorem genFrameDrop_fields (s : Emulator) :
    (genFrameDrop s).disable_ = s.disable_ ∧ (genFrameDrop s).type_ = s.type_ ∧
    (genFrameDrop s).amplitude_ = s.amplitude_ ∧ (genFrameDrop s).offset_ = s.offset_ ∧
    (genFrameDrop s).period_ = s.period_ := by
  unfold genFrameDrop
  simp only []
  split <;> exact ⟨rfl, rfl, rfl, rfl, rfl⟩

theorem advanceCounter_bound (s : Emulator) (hp : 1 ≤ s.period_) :
    (advanceCounter s).periodCounter_ < 2 * s.period_ := by
  unfold advanceCounter
  simp only []
  have hm : (2 * s.period_) % sizeMod ≤ 2 * s.period_ := Nat.mod_le _ _
  split
  · show 0 < 2 * s.period_
    omega
  · show (s.periodCounter_ + 1) % sizeMod < 2 * s.period_
    omega

theorem genFrameDrop_bound (s : Emulator) (hp : 1 ≤ s.period_) :
    (genFrameDrop s).periodCounter_ < 2 * s.period_ := by
  unfold genFrameDrop
  simp only []
  have hm : (2 * s.period_) % sizeMod ≤ 2 * s.period_ := Nat.mod_le _ _
  split
  · show 0 < 2 * s.period_
    omega
  · show (s.periodCounter_ + 1) % sizeMod < 2 * s.period_
    omega

/-- The emulator that the `switch` of `acceptFrame` leaves is the one it found, or
that one after the counter statement of a periodic generator, or, for the type Sine
only, that one after `genSinWave`. -/
theorem dispatch_state_cases (E : Externals) (s : Emulator) (a : Arrival) :
    (dispatch E s a).1 = s ∨ (dispatch E s a).1 = advanceCounter s ∨
    (dispatch E s a).1 = genFrameDrop s ∨
    (s.type_ = 6 ∧ (dispatch E s a).1 = (genSinWave E s a.bytes (numChannels E a)).1) := by
  unfold dispatch
  split
  · exact Or.inl rfl
  · exact Or.inl rfl
  · exact Or.inl rfl
  · exact Or.inr (Or.inl rfl)
  · exact Or.inr (Or.inl rfl)
  · exact Or.inr (Or.inl rfl)
  · next h => exact Or.inr (Or.inr (Or.inr ⟨ofInt_sine _ h, rfl⟩))
  · exact Or.inr (Or.inr (Or.inl rfl))
  · exact Or.inl rfl
  · exact Or.inl rfl

theorem dispatch_fields (E : Externals) (s : Emulator) (a : Arrival) :
    (dispatch E s a).1.disable_ = s.disable_ ∧ (dispatch E s a).1.type_ = s.type_ ∧
    (dispatch E s a).1.amplitude_ = s.amplitude_ ∧ (dispatch E s a).1.offset_ = s.offset_ ∧
    (dispatch E s a).1.period_ = s.period_ := by
  rcases dispatch_state_cases E s a with h | h | h | ⟨_, h⟩
  · rw [h]; exact ⟨rfl, rfl, rfl, rfl, rfl⟩
  · rw [h]; exact advanceCounter_fields s
  · rw [h]; exact genFrameDrop_fields s
  · rw [h]; exact ⟨rfl, rfl, rfl, rfl, rfl⟩

/-- The branches of `acceptFrame`: the emulator it leaves is the one it found, or the
one the `switch` left with the drop flag clear. -/
theorem acceptFrame_state_cases (E : Externals) (s : Emulator) (a : Arrival)
    (hd : s.dropFrame_ = false) :
    (acceptFrame E s a).state = s ∨ (acceptFrame E s a).state = clearDrop (dispatch E s a).1 := by
  unfold acceptFrame
  split
  · split
    · exact Or.inl rfl
    · split
      · exact Or.inl rfl
      · exact Or.inr (finish_state _ _)
  · left
    rw [finish_state]
    exact clearDrop_of_clear s hd

theorem acceptFrame_fields (E : Externals) (s : Emulator) (a : Arrival)
    (hd : s.dropFrame_ = false) :
    (acceptFrame E s a).state.disable_ = s.disable_ ∧
    (acceptFrame E s a).state.type_ = s.type_ ∧
    (acceptFrame E s a).state.amplitude_ = s.amplitude_ ∧
    (acceptFrame E s a).state.offset_ = s.offset_ ∧
    (acceptFrame E s a).state.period_ = s.period_ := by
  rcases acceptFrame_state_cases E s a hd with h | h
  · rw [h]; exact ⟨rfl, rfl, rfl, rfl, rfl⟩
  · rw [h]; exact dispatch_fields E s a

theorem acceptFrame_counter (E : Externals) (s : Emulator) (a : Arrival)
    (hd : s.dropFrame_ = false) (hp : 1 ≤ s.period_) (ht : s.type_ ≠ 6)
    (hc : s.periodCounter_ < 2 * s.period_) :
    (acceptFrame E s a).state.periodCounter_ < 2 * s.period_ := by
  rcases acceptFrame_state_cases E s a hd with h | h
  · rw [h]; exact hc
  · rw [h]
    show (dispatch E s a).1.periodCounter_ < 2 * s.period_
    rcases dispatch_state_cases E s a with h | h | h | ⟨h6, _⟩
    · rw [h]; exact hc
    · rw [h]; exact advanceCounter_bound s hp
    · rw [h]; exact genFrameDrop_bound s hp
    · exact absurd h6 ht

theorem reachable_period (E : Externals) (s : Emulator) (h : Reachable E s) :
    1 ≤ s.period_ := by
  induction h with
  | create => exact Nat.le_refl 1
  | setDisable s d _ ih => exact ih
  | setType s v _ _ _ ih =>
    unfold setType
    split
    · exact ih
    · exact ih
  | setAmplitude s v _ _ ih =>
    unfold setAmplitude
    split
    · exact ih
    · exact ih
  | setOffset s v _ _ _ ih => exact ih
  | setPeriod s v _ _ ih =>
    unfold setPeriod
    split
    · show 1 ≤ v
      omega
    · exact ih
  | acceptFrame s a hr ih =>
    rw [(acceptFrame_fields E s a (reachable_dropFrame E s hr)).2.2.2.2]
    exact ih

theorem reachable_amplitude (E : Externals) (hE : 1 ≤ E.maxAmplitude) (s : Emulator)
    (h : Reachable E s) : 1 ≤ s.amplitude_ ∧ s.amplitude_ ≤ E.maxAmplitude := by
  induction h with
  | create => exact ⟨hE, Nat.le_refl _⟩
  | setDisable s d _ ih => exact ih
  | setType s v _ _ _ ih =>
    unfold setType
    split
    · exact ih
    · exact ih
  | setAmplitude s v _ _ ih =>
    unfold setAmplitude
    split
    · next hv =>
      show 1 ≤ v ∧ v ≤ E.maxAmplitude
      omega
    · exact ih
  | setOffset s v _ _ _ ih => exact ih
  | setPeriod s v _ _ ih =>
    unfold setPeriod
    split
    · exact ih
    · exact ih
  | acceptFrame s a hr ih =>
    rw [(acceptFrame_fields E s a (reachable_dropFrame E s hr)).2.2.1]
    exact ih

theorem reachable_counter (E : Externals) (s : Emulator) (h : Reachable E s) :
    s.type_ ≠ 6 → s.periodCounter_ < 2 * s.period_ := by
  induction h with
  | create => intro _; show 0 < 2 * 1; omega
  | setDisable s d _ ih => exact ih
  | setType s v _ _ hr ih =>
    have hp := reachable_period E s hr
    unfold setType
    split
    · intro _; show 0 < 2 * s.period_; omega
    · exact ih
  | setAmplitude s v _ hr ih =>
    have hp := reachable_period E s hr
    unfold setAmplitude
    split
    · intro _; show 0 < 2 * s.period_; omega
    · exact ih
  | setOffset s v _ _ hr ih =>
    have hp := reachable_period E s hr
    intro _; show 0 < 2 * s.period_; omega
  | setPeriod s v _ hr ih =>
    unfold setPeriod
    split
    · intro _; show 0 < 2 * v; omega
    · exact ih
  | acceptFrame s a hr ih =>
    have hd := reachable_dropFrame E s hr
    have hf := acceptFrame_fields E s a hd
    intro ht
    rw [hf.2.1] at ht
    rw [hf.2.2.2.2]
    exact acceptFrame_counter E s a hd (reachable_period E s hr) ht (ih ht)

/-! ## C8: the range of the counter -/

/-- C8, as amended. In every reachable state whose signal type is not Sine,
`periodCounter_ < 2 * period_` (and `0 ≤ periodCounter_`, the counter being unsigned).
The Sine generator counts on without resetting. -/
theorem counter_in_cycle (E : Externals) (s : Emulator) (hr : Reachable E s)
    (ht : s.type_ ≠ SignalType.Sine.toInt) :
    0 ≤ s.periodCounter_ ∧ s.periodCounter_ < 2 * s.period_ :=
  ⟨Nat.zero_le _, reachable_counter E s hr ht⟩

set_option maxRecDepth 100000 in
/-- Witness of C8: an emulator in the middle of a square wave. -/
theorem counter_in_cycle_witness :
    0 ≤ midSquare.periodCounter_ ∧ midSquare.periodCounter_ < 2 * midSquare.period_ :=
  counter_in_cycle bench midSquare
    (Reachable.acceptFrame _ _
      (Reachable.setType _ 3 (by decide) (by decide)
        (Reachable.setDisable _ false Reachable.create)))
    (by decide)

set_option maxRecDepth 100000 in
/-- Counterexample to C8 as stated: constructed, enabled, set to Sine and given two
frames, the emulator has period 1 and counter 2. -/
theorem counter_in_cycle_counterexample :
    Reachable bench twoSines ∧ twoSines.period_ = 1 ∧ twoSines.periodCounter_ = 2
    ∧ ¬ (twoSines.periodCounter_ < 2 * twoSines.period_) :=
  ⟨Reachable.acceptFrame _ _
      (Reachable.acceptFrame _ _
        (Reachable.setType _ 6 (by decide) (by decide)
          (Reachable.setDisable _ false Reachable.create))),
    by decide, by decide, by decide⟩

/-! ## C9: the range of amplitude and period -/

/-- C9. Provided the constant `maxAmplitude` is at least 1, in every reachable state
`1 ≤ amplitude_ ≤ maxAmplitude` and `1 ≤ period_`, whatever arguments the setters
were called with. -/
theorem amplitude_period_in_range (E : Externals) (hE : 1 ≤ E.maxAmplitude) (s : Emulator)
    (hr : Reachable E s) :
    1 ≤ s.amplitude_ ∧ s.amplitude_ ≤ E.maxAmplitude ∧ 1 ≤ s.period_ :=
  ⟨(reachable_amplitude E hE s hr).1, (reachable_amplitude E hE s hr).2,
    reachable_period E s hr⟩

/-- Witness of C9: constructed, then `setAmplitude(0)`, `setAmplitude(40000)`,
`setPeriod(0)`, `setAmplitude(12)` and `setPeriod(3)`. -/
theorem amplitude_period_in_range_witness :
    1 ≤ (setPeriod (setAmplitude bench (setPeriod (setAmplitude bench
          (setAmplitude bench (create bench) 0) 40000) 0) 12) 3).amplitude_
    ∧ (setPeriod (setAmplitude bench (setPeriod (setAmplitude bench
          (setAmplitude bench (create bench) 0) 40000) 0) 12) 3).amplitude_ ≤ bench.maxAmplitude
    ∧ 1 ≤ (setPeriod (setAmplitude bench (setPeriod (setAmplitude bench
          (setAmplitude bench (create bench) 0) 40000) 0) 12) 3).period_ :=
  amplitude_period_in_range bench (by decide) _
    (Reachable.setPeriod _ 3 (by decide)
      (Reachable.setAmplitude _ 12 (by decide)
        (Reachable.setPeriod _ 0 (by decide)
          (Reachable.setAmplitude _ 40000 (by decide)
            (Reachable.setAmplitude _ 0 (by decide) Reachable.create)))))


/-! ## C10: the sawtooth -/

theorem sawtoothDivisor_eq (s : Emulator) (hp : 1 ≤ s.period_) (hP : 2 * s.period_ < sizeMod) :
    sawtoothDivisor s = 2 * s.period_ - 1 := by
  unfold sawtoothDivisor sizeMod at *
  omega

/-- Where nothing leaves its range, the sawtooth sample at counter `c` is
`offset + c * amplitude / (2 * period - 1)`. -/
theorem sawtoothSample_eq (s : Emulator) (hp : 1 ≤ s.period_)
    (hc : s.periodCounter_ < 2 * s.period_)
    (hP : 2 * s.period_ * s.amplitude_ < sizeMod) (hP2 : 2 * s.period_ < sizeMod)
    (ho : -32768 ≤ s.offset_) (hoa : s.offset_ + s.amplitude_ < 32768) :
    sawtoothSample s
      = s.offset_ + ((s.periodCounter_ * s.amplitude_ / (2 * s.period_ - 1) : Nat) : Int) := by
  unfold sawtoothSample
  rw [sawtoothDivisor_eq s hp hP2]
  have hmul : s.periodCounter_ * s.amplitude_ ≤ (2 * s.period_ - 1) * s.amplitude_ :=
    Nat.mul_le_mul_right _ (by omega)
  have hmul2 : (2 * s.period_ - 1) * s.amplitude_ ≤ 2 * s.period_ * s.amplitude_ :=
    Nat.mul_le_mul_right _ (by omega)
  have hlt : s.periodCounter_ * s.amplitude_ < sizeMod := by omega
  rw [Nat.mod_eq_of_lt hlt]
  have hq : s.periodCounter_ * s.amplitude_ / (2 * s.period_ - 1) ≤ s.amplitude_ := by
    exact Nat.div_le_of_le_mul hmul
  generalize s.periodCounter_ * s.amplitude_ / (2 * s.period_ - 1) = q at hq ⊢
  unfold toFw toSize sizeMod
  omega

theorem sawtoothSample_congr (t u : Emulator) (h : clearDrop t = clearDrop u) :
    sawtoothSample t = sawtoothSample u := by
  obtain ⟨_, _, f3, f4, f5, f6⟩ := clearDrop_fields t u h
  unfold sawtoothSample sawtoothDivisor
  rw [f3, f4, f5, f6]

theorem sawtooth_frame (E : Externals) (t : Emulator) (a : Arrival) (i : Nat)
    (hen : t.disable_ = false) (ht : t.type_ = 4) (ha : a.good E)
    (hi : i < numChannels E a) :
    readSample E (acceptFrame E t a).bytes i = sawtoothSample t := by
  rw [acceptFrame_enabled E t a hen ha, finish_bytes]
  simp only [dispatch, ht, SignalType.ofInt, getSawtoothWave]
  simp only [show (4 : Int) = 0 ↔ False by decide, show (4 : Int) = 1 ↔ False by decide,
    show (4 : Int) = 2 ↔ False by decide, show (4 : Int) = 3 ↔ False by decide,
    if_false, if_true]
  rw [readSample_fill E a.bytes _ _ i hi (by have := ha.2; omega)]
  unfold sawtoothSample
  exact toFw_toFw _

/-- C10, as amended. With the emulator enabled, the type Sawtooth, the counter at 0, an
amplitude of at least 1, a period `P ≥ 1` with `2 * P * amplitude` below the range of
`size_t`, and an offset with `offset + amplitude` in the sample range: in `2 * P + 1`
frames that are single buffers of the right size, every channel of frame `k` holds the
sawtooth sample for counter `k mod 2 * P`, which is `offset + c * amplitude / (2 * P - 1)`
at counter `c`, and the frame is sent on as rewritten when the drop flag was clear at
the start; these samples do not decrease over the `2 * P` frames of the cycle, and the
frame after the cycle holds the sample of the first frame again. -/
theorem sawtooth_monotone_cycle (E : Externals) (s : Emulator) (as : List Arrival)
    (hen : s.disable_ = false) (hty : s.type_ = SignalType.Sawtooth.toInt)
    (hc : s.periodCounter_ = 0)
    (ha1 : 1 ≤ s.amplitude_) (hp : 1 ≤ s.period_)
    (hP : 2 * s.period_ * s.amplitude_ < sizeMod)
    (ho : -32768 ≤ s.offset_) (hoa : s.offset_ + s.amplitude_ < 32768)
    (hlen : as.length = 2 * s.period_ + 1) (hgood : ∀ a ∈ as, a.good E) :
    (∀ k a, as[k]? = some a → ∃ o, (feed E s as)[k]? = some o ∧
      (∀ i, i < numChannels E a →
        readSample E o.bytes i = sawtoothSample (withCounter s (k % (2 * s.period_))))
      ∧ (s.dropFrame_ = false → o.sent = [o.bytes]))
    ∧ (∀ c, c < 2 * s.period_ → sawtoothSample (withCounter s c)
        = s.offset_ + ((c * s.amplitude_ / (2 * s.period_ - 1) : Nat) : Int))
    ∧ (∀ j k, j ≤ k → k < 2 * s.period_ →
        sawtoothSample (withCounter s j) ≤ sawtoothSample (withCounter s k)) := by
  have ht : s.type_ = 4 := hty
  have hper : Periodic s := Or.inr (Or.inl ht)
  have hP2 : 2 * s.period_ < sizeMod := by
    have : 2 * s.period_ * 1 ≤ 2 * s.period_ * s.amplitude_ := Nat.mul_le_mul_left _ ha1
    omega
  have hform : ∀ c, c < 2 * s.period_ → sawtoothSample (withCounter s c)
      = s.offset_ + ((c * s.amplitude_ / (2 * s.period_ - 1) : Nat) : Int) :=
    fun c hcl => sawtoothSample_eq (withCounter s c) hp hcl hP hP2 ho hoa
  refine ⟨?_, hform, ?_⟩
  · intro k a hk
    have hkl : k < as.length := (List.getElem?_eq_some.1 hk).1
    have ha : a.good E := hgood a (List.getElem?_mem hk)
    by_cases hk2 : k < 2 * s.period_
    · have hst := cycle_state E as s k hen hper hc hgood hP2 hk2 (by omega)
      obtain ⟨f1, f2, _, _, _, _⟩ := clearDrop_fields _ _ hst
      refine ⟨_, feed_getElem? E as s k a hk, ?_, fun hd =>
        wave_sent E _ a (by rw [f1]; exact hen) ha (after_dropFrame E _ s hd)
          (Or.inr (Or.inl (by rw [f2]; exact ht)))⟩
      intro i hi
      rw [sawtooth_frame E _ a i (by rw [f1]; exact hen) (by rw [f2]; exact ht) ha hi]
      rw [Nat.mod_eq_of_lt hk2]
      exact sawtoothSample_congr _ _ hst
    · have hk3 : k = 2 * s.period_ := by omega
      have hend := cycle_end E (as.take k) s hen hper hc
        (fun b hb => hgood b (List.mem_of_mem_take hb)) hp hP2
        (by rw [List.length_take]; omega)
      refine ⟨_, feed_getElem? E as s k a hk, ?_, fun hd =>
        wave_sent E _ a (by rw [hend]; exact hen) ha (after_dropFrame E _ s hd)
          (Or.inr (Or.inl (by rw [hend]; exact ht)))⟩
      intro i hi
      rw [hend]
      rw [sawtooth_frame E (clearDrop s) a i hen ht ha hi]
      rw [hk3, Nat.mod_self]
      apply sawtoothSample_congr
      cases s
      simp only [clearDrop, withCounter] at hc ⊢
      simp [hc]
  · intro j k hjk hk
    rw [hform j (by omega), hform k hk]
    have : j * s.amplitude_ / (2 * s.period_ - 1) ≤ k * s.amplitude_ / (2 * s.period_ - 1) :=
      Nat.div_le_div_right (Nat.mul_le_mul_right _ hjk)
    omega

set_option maxRecDepth 100000 in
/-- Witness of C10: amplitude 10, offset 0, period 3, frames of 3 channels. The theorem
applies to seven frames, and evaluating them gives 0, 2, 4, 6, 8, 10 and 0 again. -/
theorem sawtooth_monotone_cycle_witness :
    ((∀ k a, (List.replicate 7 (benchFrame 3 5))[k]? = some a →
        ∃ o, (feed bench (configured 4 10 0 3) (List.replicate 7 (benchFrame 3 5)))[k]? = some o ∧
          (∀ i, i < numChannels bench a →
            readSample bench o.bytes i = sawtoothSample (withCounter (configured 4 10 0 3) (k % (2 * 3))))
          ∧ (false = false → o.sent = [o.bytes]))
      ∧ (∀ c, c < 2 * 3 → sawtoothSample (withCounter (configured 4 10 0 3) c)
          = 0 + ((c * 10 / (2 * 3 - 1) : Nat) : Int))
      ∧ (∀ j k, j ≤ k → k < 2 * 3 →
          sawtoothSample (withCounter (configured 4 10 0 3) j)
            ≤ sawtoothSample (withCounter (configured 4 10 0 3) k)))
    ∧ (feed bench (configured 4 10 0 3) (List.replicate 7 (benchFrame 3 5))).map
        (fun o => channels o.bytes 3)
      = [[0, 0, 0], [2, 2, 2], [4, 4, 4], [6, 6, 6], [8, 8, 8], [10, 10, 10], [0, 0, 0]] :=
  ⟨sawtooth_monotone_cycle bench (configured 4 10 0 3) (List.replicate 7 (benchFrame 3 5))
      rfl rfl rfl (by decide) (by decide) (by decide) (by decide) (by decide) (by decide)
      (fun a ha => by rw [List.eq_of_mem_replicate ha]; exact benchFrame_good 3 5 (by decide)),
    by decide⟩


/-- Frame `k` of a run of equal frames through a periodic signal type meets the
emulator with the counter at `k`. -/
theorem feed_replicate_cycle (E : Externals) (s : Emulator) (f : Arrival) (n k : Nat)
    (hen : s.disable_ = false) (ht : Periodic s) (hc : s.periodCounter_ = 0)
    (hd : s.dropFrame_ = false) (hf : f.good E) (hP : 2 * s.period_ < sizeMod)
    (hk : k < 2 * s.period_) (hn : k < n) :
    (feed E s (List.replicate n f))[k]? = some (acceptFrame E (clearDrop (withCounter s k)) f) := by
  have hget : (List.replicate n f)[k]? = some f := by
    rw [List.getElem?_replicate, if_pos hn]
  rw [feed_getElem? E _ s k f hget]
  have hst := cycle_state E (List.replicate n f) s k hen ht hc
    (fun a ha => by rw [List.eq_of_mem_replicate ha]; exact hf) hP hk
    (by rw [List.length_replicate]; omega)
  rw [clearDrop_of_clear _ (after_dropFrame E _ s hd)] at hst
  rw [hst]

set_option maxRecDepth 100000 in
/-- Counterexample to C10 as stated. First, with amplitude 10, offset 32767 and period 1
the two frames of the cycle hold 32767 and then -32759: the second value does not fit
the sample type and the sequence decreases. Second, with amplitude 4, offset 0 and
period `2 ^ 62` the product `periodCounter_ * amplitude_` leaves the range of `size_t`
at counter `2 ^ 62`: frame `2 ^ 62` of the cycle holds 1 and the next frame holds 0. -/
theorem sawtooth_counterexample :
    (feed bench (configured 4 10 32767 1) (List.replicate 2 (benchFrame 3 5))).map
        (fun o => channels o.bytes 3)
      = [[32767, 32767, 32767], [-32759, -32759, -32759]]
    ∧ ((feed bench (configured 4 4 0 (2 ^ 62)) (List.replicate (2 ^ 63) (benchFrame 3 5)))[2 ^ 62 - 1]?).map
        (fun o => channels o.bytes 3) = some [1, 1, 1]
    ∧ ((feed bench (configured 4 4 0 (2 ^ 62)) (List.replicate (2 ^ 63) (benchFrame 3 5)))[2 ^ 62]?).map
        (fun o => channels o.bytes 3) = some [0, 0, 0] := by
  refine ⟨by decide, ?_, ?_⟩
  · rw [feed_replicate_cycle bench (configured 4 4 0 (2 ^ 62)) (benchFrame 3 5) (2 ^ 63) (2 ^ 62 - 1)
      rfl (Or.inr (Or.inl rfl)) rfl rfl (benchFrame_good 3 5 (by decide))
      (by decide) (by decide) (by decide)]
    decide
  · rw [feed_replicate_cycle bench (configured 4 4 0 (2 ^ 62)) (benchFrame 3 5) (2 ^ 63) (2 ^ 62)
      rfl (Or.inr (Or.inl rfl)) rfl rfl (benchFrame_good 3 5 (by decide))
      (by decide) (by decide) (by decide)]
    decide


/-! ## Frame buffers: the bytes a generator leaves -/

theorem getElem?_writeSample (E : Externals) (mem : List Nat) (i j : Nat) (v : Int) :
    (writeSample E mem i v)[j]? =
      if j < mem.length ∧ (j = E.SmurfHeaderSize + 2 * i ∨ j = E.SmurfHeaderSize + 2 * i + 1)
      then some (sampleByte v (j - (E.SmurfHeaderSize + 2 * i)))
      else mem[j]? := by
  unfold writeSample sampleByte
  simp only [List.getElem?_set, List.length_set]
  by_cases h1 : E.SmurfHeaderSize + 2 * i + 1 = j
  · subst h1
    by_cases hl : E.SmurfHeaderSize + 2 * i + 1 < mem.length
    · simp [hl]
    · have : mem[E.SmurfHeaderSize + 2 * i + 1]? = none := List.getElem?_eq_none (by omega)
      simp [hl, this]
  · by_cases h0 : E.SmurfHeaderSize + 2 * i = j
    · subst h0
      by_cases hl : E.SmurfHeaderSize + 2 * i < mem.length
      · simp [hl]
      · have : mem[E.SmurfHeaderSize + 2 * i]? = none := List.getElem?_eq_none (by omega)
        simp [hl, this]
    · have h2 : ¬ (j = E.SmurfHeaderSize + 2 * i ∨ j = E.SmurfHeaderSize + 2 * i + 1) := by omega
      simp [h1, h0, h2]

theorem writeEach_length (E : Externals) (mem : List Nat) (f : Nat → Int) (n : Nat) :
    (writeEach E mem f n).length = mem.length := by
  induction n with
  | zero => rfl
  | succ n ih => simp [writeEach, writeSample_length, ih]

/-- The bytes after the loop: inside the `n` slots that follow the header each byte of
the buffer is the byte of the value written to its slot, and every other byte is as it
was. -/
theorem getElem?_writeEach (E : Externals) (mem : List Nat) (f : Nat → Int) (n j : Nat) :
    (writeEach E mem f n)[j]? =
      if j < mem.length ∧ E.SmurfHeaderSize ≤ j ∧ j < E.SmurfHeaderSize + 2 * n
      then some (sampleByte (f ((j - E.SmurfHeaderSize) / 2)) ((j - E.SmurfHeaderSize) % 2))
      else mem[j]? := by
  induction n with
  | zero =>
    simp only [writeEach]
    rw [if_neg (by omega)]
  | succ n ih =>
    simp only [writeEach]
    rw [getElem?_writeSample, writeEach_length, ih]
    by_cases hin : j < mem.length ∧
        (j = E.SmurfHeaderSize + 2 * n ∨ j = E.SmurfHeaderSize + 2 * n + 1)
    · rw [if_pos hin, if_pos (by omega)]
      have h1 : (j - E.SmurfHeaderSize) / 2 = n := by omega
      have h2 : (j - E.SmurfHeaderSize) % 2 = j - (E.SmurfHeaderSize + 2 * n) := by omega
      rw [h1, h2]
    · rw [if_neg hin]
      by_cases hlow : j < mem.length ∧ E.SmurfHeaderSize ≤ j ∧ j < E.SmurfHeaderSize + 2 * n
      · rw [if_pos hlow, if_pos (by omega)]
      · rw [if_neg hlow, if_neg (by omega)]

theorem fill_eq_writeEach (E : Externals) (mem : List Nat) (v : Int) (n : Nat) :
    fill E mem v n = writeEach E mem (fun _ => v) n := by
  induction n with
  | zero => rfl
  | succ n ih => simp [fill, writeEach, ih]

theorem genChannelNumberWave_eq_writeEach (E : Externals) (mem : List Nat) (n : Nat) :
    genChannelNumberWave E mem n = writeEach E mem (fun i => toFw i) n := by
  induction n with
  | zero => rfl
  | succ n ih => simp [genChannelNumberWave, writeEach, ih]

theorem genRandomWave_eq_writeEach (E : Externals) (draws : Nat → Int) (mem : List Nat)
    (n : Nat) :
    genRandomWave E draws mem n = writeEach E mem (fun i => toFw (draws i)) n := by
  induction n with
  | zero => rfl
  | succ n ih => simp [genRandomWave, writeEach, ih]

theorem readSample_eq_toFw_readWord (E : Externals) (mem : List Nat) (i : Nat) :
    readSample E mem i = toFw (readWord E mem i) := rfl

theorem readWord_writeEach (E : Externals) (mem : List Nat) (f : Nat → Int) (n i : Nat)
    (hi : i < n) (h : E.SmurfHeaderSize + 2 * n ≤ mem.length) :
    readWord E (writeEach E mem f n) i = (f i % 65536).toNat := by
  unfold readWord
  simp only [List.getD_eq_getElem?_getD, getElem?_writeEach]
  rw [if_pos (by omega), if_pos (by omega)]
  have h1 : (E.SmurfHeaderSize + 2 * i - E.SmurfHeaderSize) / 2 = i := by omega
  have h2 : (E.SmurfHeaderSize + 2 * i - E.SmurfHeaderSize) % 2 = 0 := by omega
  have h3 : (E.SmurfHeaderSize + 2 * i + 1 - E.SmurfHeaderSize) / 2 = i := by omega
  have h4 : (E.SmurfHeaderSize + 2 * i + 1 - E.SmurfHeaderSize) % 2 = 1 := by omega
  rw [h1, h2, h3, h4]
  simp only [sampleByte, Option.getD_some]
  simp
  omega

theorem readSample_writeEach (E : Externals) (mem : List Nat) (f : Nat → Int) (n i : Nat)
    (hi : i < n) (h : E.SmurfHeaderSize + 2 * n ≤ mem.length) :
    readSample E (writeEach E mem f n) i = toFw (f i) := by
  rw [readSample_eq_toFw_readWord, readWord_writeEach E mem f n i hi h]
  unfold toFw
  omega


/-! ## C11 and C12: the triangle -/

theorem triangle_frame (E : Externals) (t : Emulator) (a : Arrival) (i : Nat)
    (hen : t.disable_ = false) (ht : t.type_ = 5) (ha : a.good E)
    (hi : i < numChannels E a) :
    readSample E (acceptFrame E t a).bytes i = triangleSample t := by
  rw [acceptFrame_enabled E t a hen ha, finish_bytes]
  simp only [dispatch, ht, SignalType.ofInt, genTriangleWave]
  simp only [show (5 : Int) = 0 ↔ False by decide, show (5 : Int) = 1 ↔ False by decide,
    show (5 : Int) = 2 ↔ False by decide, show (5 : Int) = 3 ↔ False by decide,
    show (5 : Int) = 4 ↔ False by decide, if_false, if_true]
  rw [readSample_fill E a.bytes _ _ i hi (by have := ha.2; omega)]
  unfold triangleSample
  exact toFw_toFw _

/-- At the counter value `period_` the triangle formula leaves `offset_ - amplitude_`. -/
theorem triangleSample_at_period (s : Emulator) (hc : s.periodCounter_ = s.period_) :
    triangleSample s = toFw (s.offset_ - s.amplitude_) := by
  unfold triangleSample triangleAbs
  rw [hc]
  simp only [sub_self]
  have h0 : toSize 0 = 0 := by decide
  have h1 : toFw ((0 : Nat) : Int) = 0 := by decide
  have h2 : toFw |(0 : Int)| = 0 := by decide
  have h3 : toInt (0 * 2) = 0 := by decide
  have h4 : toInt (0 * (s.amplitude_ : Int)) = 0 := by simp [toInt]
  rw [h0, h1, h2, h3, h4, h0, Nat.zero_div]
  unfold toFw toSize sizeMod
  omega

/-- The magnitude in the triangle formula is the same `k` steps before and `k` steps
after the counter value `period_`. -/
theorem triangleAbs_symmetric (s : Emulator) (k : Nat) (hk : k ≤ s.period_) :
    triangleAbs (withCounter s (s.period_ - k)) = triangleAbs (withCounter s (s.period_ + k)) := by
  unfold triangleAbs withCounter
  simp only []
  have e1 : (((s.period_ - k : Nat) : Int) - (s.period_ : Int)) = -(k : Int) := by omega
  have e2 : (((s.period_ + k : Nat) : Int) - (s.period_ : Int)) = (k : Int) := by omega
  rw [e1, e2]
  generalize (k : Int) = z
  unfold toFw toSize sizeMod
  rcases abs_cases ((((-z % ((2 ^ 64 : Nat) : Int)).toNat : Int) + 32768) % 65536 - 32768)
    with ⟨h1, _⟩ | ⟨h1, _⟩ <;>
  rcases abs_cases ((((z % ((2 ^ 64 : Nat) : Int)).toNat : Int) + 32768) % 65536 - 32768)
    with ⟨h2, _⟩ | ⟨h2, _⟩ <;>
  rw [h1, h2] <;> omega

theorem triangleSample_symmetric (s : Emulator) (k : Nat) (hk : k ≤ s.period_) :
    triangleSample (withCounter s (s.period_ - k))
      = triangleSample (withCounter s (s.period_ + k)) := by
  have h := triangleAbs_symmetric s k hk
  unfold triangleSample triangleDivisor
  rw [h]
  rfl


/-- C11, as amended. With the emulator enabled and the type Triangle, the frame that is
generated at `periodCounter_ = period_` holds in every channel `offset - amplitude`
converted to the sample type; the frame is sent on as rewritten when the drop flag was
clear. The conversion changes no value that lies in the sample range. -/
theorem triangle_at_period (E : Externals) (s : Emulator) (a : Arrival)
    (hen : s.disable_ = false) (hty : s.type_ = SignalType.Triangle.toInt)
    (hc : s.periodCounter_ = s.period_) (ha : a.good E) :
    (∀ i, i < numChannels E a →
      readSample E (acceptFrame E s a).bytes i = toFw (s.offset_ - s.amplitude_))
    ∧ (s.dropFrame_ = false → (acceptFrame E s a).sent = [(acceptFrame E s a).bytes])
    ∧ (∀ x : Int, -32768 ≤ x → x < 32768 → toFw x = x) := by
  have ht : s.type_ = 5 := hty
  refine ⟨fun i hi => ?_, fun hd => wave_sent E s a hen ha hd (Or.inr (Or.inr ht)),
    toFw_of_range⟩
  rw [triangle_frame E s a i hen ht ha hi, triangleSample_at_period s hc]

set_option maxRecDepth 100000 in
/-- Witness of C11: amplitude 10, offset 0, period 3; after three frames the counter
is 3, and the fourth frame holds -10 in its 3 channels. -/
theorem triangle_at_period_witness :
    ((∀ i, i < numChannels bench (benchFrame 3 5) →
        readSample bench (acceptFrame bench
          (after bench triangleReady (List.replicate 3 (benchFrame 3 5))) (benchFrame 3 5)).bytes i
          = toFw (0 - (10 : Nat)))
      ∧ (false = false →
          (acceptFrame bench
            (after bench triangleReady (List.replicate 3 (benchFrame 3 5))) (benchFrame 3 5)).sent
          = [(acceptFrame bench
            (after bench triangleReady (List.replicate 3 (benchFrame 3 5))) (benchFrame 3 5)).bytes])
      ∧ (∀ x : Int, -32768 ≤ x → x < 32768 → toFw x = x))
    ∧ toFw (0 - (10 : Nat)) = -10 :=
  ⟨triangle_at_period bench (after bench triangleReady (List.replicate 3 (benchFrame 3 5)))
      (benchFrame 3 5) (by decide) (by decide) (by decide) (benchFrame_good 3 5 (by decide)),
    by decide⟩

set_option maxRecDepth 100000 in
/-- Counterexample to C11 as stated. First, amplitude 10, offset 0, period 3: the first
three frames hold 10, 3 and -4; they leave the counter at 3, the period, and the frame
generated there holds -10 in every channel, not the offset 0. Second, amplitude 1,
offset -32768, period 2: the first two frames leave the counter at 2, the period, and
the frame generated there holds 32767, which is `offset - amplitude = -32769` converted
to the sample type. -/
theorem triangle_at_period_counterexample :
    ((feed bench triangleReady (List.replicate 4 (benchFrame 3 5))).map
          (fun o => channels o.bytes 3)
        = [[10, 10, 10], [3, 3, 3], [-4, -4, -4], [-10, -10, -10]]
      ∧ (after bench triangleReady (List.replicate 3 (benchFrame 3 5))).periodCounter_
        = (after bench triangleReady (List.replicate 3 (benchFrame 3 5))).period_
      ∧ triangleReady.offset_ = 0)
    ∧ ((feed bench (configured 5 1 (-32768) 2) (List.replicate 3 (benchFrame 3 5))).map
          (fun o => channels o.bytes 3)
        = [[-32767, -32767, -32767], [-32768, -32768, -32768], [32767, 32767, 32767]]
      ∧ (after bench (configured 5 1 (-32768) 2) (List.replicate 2 (benchFrame 3 5))).periodCounter_
        = (configured 5 1 (-32768) 2).period_) := by
  decide

/-- C12. With the emulator enabled and the type Triangle, for every `k` with
`1 ≤ k < period_` the frame generated at `periodCounter_ = period_ - k` and the frame
generated at `periodCounter_ = period_ + k` hold the same value in every channel, the
triangle sample of either counter value. -/
theorem triangle_symmetric (E : Externals) (s : Emulator) (a b : Arrival) (k : Nat)
    (hen : s.disable_ = false) (hty : s.type_ = SignalType.Triangle.toInt)
    (_hk1 : 1 ≤ k) (hk : k < s.period_) (ha : a.good E) (hb : b.good E) :
    triangleSample (withCounter s (s.period_ - k))
      = triangleSample (withCounter s (s.period_ + k))
    ∧ (∀ i, i < numChannels E a →
        readSample E (acceptFrame E (withCounter s (s.period_ - k)) a).bytes i
          = triangleSample (withCounter s (s.period_ - k)))
    ∧ (∀ j, j < numChannels E b →
        readSample E (acceptFrame E (withCounter s (s.period_ + k)) b).bytes j
          = triangleSample (withCounter s (s.period_ - k))) := by
  have ht : s.type_ = 5 := hty
  have hsym := triangleSample_symmetric s k (by omega)
  refine ⟨hsym, fun i hi => ?_, fun j hj => ?_⟩
  · exact triangle_frame E (withCounter s (s.period_ - k)) a i hen ht ha hi
  · rw [hsym]
    exact triangle_frame E (withCounter s (s.period_ + k)) b j hen ht hb hj

set_option maxRecDepth 100000 in
/-- Witness of C12: amplitude 10, offset 0, period 3 and `k = 2`, counters 1 and 5. The
six frames of a cycle hold 10, 3, -4, -10, -4 and 3. -/
theorem triangle_symmetric_witness :
    (triangleSample (withCounter triangleReady (3 - 2))
        = triangleSample (withCounter triangleReady (3 + 2))
      ∧ (∀ i, i < numChannels bench (benchFrame 3 5) →
          readSample bench (acceptFrame bench (withCounter triangleReady (3 - 2)) (benchFrame 3 5)).bytes i
            = triangleSample (withCounter triangleReady (3 - 2)))
      ∧ (∀ j, j < numChannels bench (benchFrame 2 7) →
          readSample bench (acceptFrame bench (withCounter triangleReady (3 + 2)) (benchFrame 2 7)).bytes j
            = triangleSample (withCounter triangleReady (3 - 2))))
    ∧ (feed bench triangleReady (List.replicate 6 (benchFrame 3 5))).map
        (fun o => channels o.bytes 3)
      = [[10, 10, 10], [3, 3, 3], [-4, -4, -4], [-10, -10, -10], [-4, -4, -4], [3, 3, 3]] :=
  ⟨triangle_symmetric bench triangleReady (benchFrame 3 5) (benchFrame 2 7) 2
      (by decide) (by decide) (by decide) (by decide)
      (benchFrame_good 3 5 (by decide)) (benchFrame_good 2 7 (by decide)),
    by decide⟩


/-! ## Which frames are sent on -/

theorem ofInt_dropFrame (v : Int) (h : SignalType.ofInt v = some SignalType.DropFrame) :
    v = 7 := by
  unfold SignalType.ofInt at h
  split_ifs at h <;> first | assumption | simp at h

theorem advanceCounter_dropFrame (s : Emulator) :
    (advanceCounter s).dropFrame_ = s.dropFrame_ := by
  unfold advanceCounter
  simp only []
  split <;> rfl

/-- Only the frame drop generator touches the drop flag. -/
theorem dispatch_dropFrame_of_ne (E : Externals) (s : Emulator) (a : Arrival)
    (ht : s.type_ ≠ 7) : (dispatch E s a).1.dropFrame_ = s.dropFrame_ := by
  unfold dispatch
  split
  · rfl
  · rfl
  · rfl
  · exact advanceCounter_dropFrame s
  · exact advanceCounter_dropFrame s
  · exact advanceCounter_dropFrame s
  · rfl
  · next h => exact absurd (ofInt_dropFrame _ h) ht
  · rfl
  · rfl

/-- An enabled emulator whose type is not DropFrame sends every frame it has taken to
the generators, provided the drop flag was clear. -/
theorem sent_of_not_drop (E : Externals) (s : Emulator) (a : Arrival)
    (hen : s.disable_ = false) (ha : a.good E) (hd : s.dropFrame_ = false)
    (ht : s.type_ ≠ 7) :
    (acceptFrame E s a).sent = [(acceptFrame E s a).bytes] := by
  rw [acceptFrame_enabled E s a hen ha, finish_bytes]
  apply finish_sent
  rw [dispatch_dropFrame_of_ne E s a ht]
  exact hd

/-! ## C13: zeros -/

/-- C13. With the emulator enabled and the type Zeros, whatever the amplitude, the
offset, the period and the counter are, every channel of a frame that is a single
buffer of the right size holds 0 after `acceptFrame`, whatever the payload held
before; the emulator is as it was, and the frame is sent on as rewritten when the drop
flag was clear. -/
theorem zeros_every_channel (E : Externals) (s : Emulator) (a : Arrival)
    (hen : s.disable_ = false) (hty : s.type_ = SignalType.Zeros.toInt) (ha : a.good E) :
    (∀ i, i < numChannels E a → readSample E (acceptFrame E s a).bytes i = 0)
    ∧ (acceptFrame E s a).state = clearDrop s
    ∧ (s.dropFrame_ = false → (acceptFrame E s a).sent = [(acceptFrame E s a).bytes]) := by
  have ht : s.type_ = 0 := hty
  have hdis : dispatch E s a = (s, genZeroWave E a.bytes (numChannels E a)) := by
    simp [dispatch, ht, SignalType.ofInt]
  refine ⟨fun i hi => ?_, ?_, fun hd => sent_of_not_drop E s a hen ha hd (by rw [ht]; decide)⟩
  · rw [acceptFrame_enabled E s a hen ha, finish_bytes, hdis]
    show readSample E (fill E a.bytes 0 (numChannels E a)) i = 0
    rw [readSample_fill E a.bytes 0 _ i hi (by have := ha.2; omega)]
    decide
  · rw [acceptFrame_enabled E s a hen ha, finish_state, hdis]

set_option maxRecDepth 100000 in
/-- Witness of C13: a frame of 3 channels whose bytes all hold 5, through an emulator
in the middle of a square wave that was set to Zeros. -/
theorem zeros_every_channel_witness :
    ((∀ i, i < numChannels bench (benchFrame 3 5) →
        readSample bench (acceptFrame bench (setType midSquare 0) (benchFrame 3 5)).bytes i = 0)
      ∧ (acceptFrame bench (setType midSquare 0) (benchFrame 3 5)).state
          = clearDrop (setType midSquare 0)
      ∧ (false = false → (acceptFrame bench (setType midSquare 0) (benchFrame 3 5)).sent
          = [(acceptFrame bench (setType midSquare 0) (benchFrame 3 5)).bytes]))
    ∧ channels (benchFrame 3 5).bytes 3 = [1285, 1285, 1285]
    ∧ channels (acceptFrame bench (setType midSquare 0) (benchFrame 3 5)).bytes 3 = [0, 0, 0] :=
  ⟨zeros_every_channel bench (setType midSquare 0) (benchFrame 3 5)
      (by decide) (by decide) (benchFrame_good 3 5 (by decide)),
    by decide, by decide⟩

/-! ## C14: channel numbers -/

/-- C14. With the emulator enabled and the type ChannelNumber, after `acceptFrame` slot
`i` of a frame that is a single buffer of the right size holds, for every `i` below the
channel count, the number `i mod fwMod` in its two bytes, which is `i` converted to the
sample type: `i` itself below 32768. The emulator is as it was, and the frame is sent
on as rewritten when the drop flag was clear. -/
theorem channel_number_every_channel (E : Externals) (s : Emulator) (a : Arrival)
    (hen : s.disable_ = false) (hty : s.type_ = SignalType.ChannelNumber.toInt)
    (ha : a.good E) :
    (∀ i, i < numChannels E a →
      readWord E (acceptFrame E s a).bytes i = i % fwMod
      ∧ readSample E (acceptFrame E s a).bytes i = toFw i
      ∧ (i < 32768 → readSample E (acceptFrame E s a).bytes i = i))
    ∧ (acceptFrame E s a).state = clearDrop s
    ∧ (s.dropFrame_ = false → (acceptFrame E s a).sent = [(acceptFrame E s a).bytes]) := by
  have ht : s.type_ = 1 := hty
  have hdis : dispatch E s a = (s, genChannelNumberWave E a.bytes (numChannels E a)) := by
    simp [dispatch, ht, SignalType.ofInt]
  have hlen : E.SmurfHeaderSize + 2 * numChannels E a ≤ a.bytes.length := by
    have := ha.2
    omega
  refine ⟨fun i hi => ?_, ?_, fun hd => sent_of_not_drop E s a hen ha hd (by rw [ht]; decide)⟩
  · rw [acceptFrame_enabled E s a hen ha, finish_bytes, hdis]
    simp only [genChannelNumberWave_eq_writeEach]
    have hw := readWord_writeEach E a.bytes (fun i => toFw i) _ i hi hlen
    have hs := readSample_writeEach E a.bytes (fun i => toFw i) _ i hi hlen
    simp only [toFw_toFw] at hs
    beta_reduce at hw
    refine ⟨?_, hs, fun h32 => ?_⟩
    · rw [hw]
      unfold toFw fwMod
      omega
    · rw [hs]
      unfold toFw
      omega
  · rw [acceptFrame_enabled E s a hen ha, finish_state, hdis]

set_option maxRecDepth 100000 in
/-- Witness of C14: a frame of 3 channels whose bytes all hold 5 comes out with the
channels 0, 1 and 2. -/
theorem channel_number_every_channel_witness :
    ((∀ i, i < numChannels bench (benchFrame 3 5) →
        readWord bench (acceptFrame bench (configured 1 10 0 2) (benchFrame 3 5)).bytes i = i % fwMod
        ∧ readSample bench (acceptFrame bench (configured 1 10 0 2) (benchFrame 3 5)).bytes i = toFw i
        ∧ (i < 32768 →
            readSample bench (acceptFrame bench (configured 1 10 0 2) (benchFrame 3 5)).bytes i = i))
      ∧ (acceptFrame bench (configured 1 10 0 2) (benchFrame 3 5)).state
          = clearDrop (configured 1 10 0 2)
      ∧ (false = false → (acceptFrame bench (configured 1 10 0 2) (benchFrame 3 5)).sent
          = [(acceptFrame bench (configured 1 10 0 2) (benchFrame 3 5)).bytes]))
    ∧ channels (acceptFrame bench (configured 1 10 0 2) (benchFrame 3 5)).bytes 3 = [0, 1, 2] :=
  ⟨channel_number_every_channel bench (configured 1 10 0 2) (benchFrame 3 5)
      rfl rfl (benchFrame_good 3 5 (by decide)),
    by decide⟩


/-! ## C15: the sine counter -/

theorem sine_dispatch (E : Externals) (s : Emulator) (a : Arrival) (ht : s.type_ = 6) :
    dispatch E s a = genSinWave E s a.bytes (numChannels E a) := by
  simp [dispatch, ht, SignalType.ofInt]

theorem sine_step (E : Externals) (s : Emulator) (a : Arrival)
    (hen : s.disable_ = false) (ht : s.type_ = 6) (ha : a.good E) :
    (acceptFrame E s a).state
      = clearDrop (withCounter s ((s.periodCounter_ + 1) % sizeMod)) := by
  rw [acceptFrame_enabled E s a hen ha, finish_state, sine_dispatch E s a ht]
  rfl

theorem sine_frame (E : Externals) (s : Emulator) (a : Arrival) (i : Nat)
    (hen : s.disable_ = false) (ht : s.type_ = 6) (ha : a.good E)
    (hi : i < numChannels E a) :
    readSample E (acceptFrame E s a).bytes i
      = toFw (E.sinSample s.amplitude_ ((s.periodCounter_ + 1) % sizeMod)
          ((2 * s.period_) % sizeMod) s.offset_) := by
  rw [acceptFrame_enabled E s a hen ha, finish_bytes, sine_dispatch E s a ht]
  simp only [genSinWave]
  rw [readSample_fill E a.bytes _ _ i hi (by have := ha.2; omega)]
  exact toFw_toFw _

/-- Frames of a sine move the counter up by one each, modulo the range of `size_t`,
and leave the configuration alone. -/
theorem after_sine (E : Externals) (as : List Arrival) (s : Emulator)
    (hen : s.disable_ = false) (ht : s.type_ = 6) (hgood : ∀ a ∈ as, a.good E)
    (hpc : s.periodCounter_ < sizeMod) :
    clearDrop (after E s as)
      = clearDrop (withCounter s ((s.periodCounter_ + as.length) % sizeMod)) := by
  induction as generalizing s with
  | nil =>
    simp only [after, List.length_nil, Nat.add_zero, Nat.mod_eq_of_lt hpc]
    rfl
  | cons a as ih =>
    have hst := sine_step E s a hen ht (hgood a (by simp))
    have key := ih (clearDrop (withCounter s ((s.periodCounter_ + 1) % sizeMod))) hen ht
      (fun b hb => hgood b (by simp [hb])) (Nat.mod_lt _ (by decide))
    simp only [after, hst, key]
    simp only [clearDrop, withCounter, List.length_cons]
    congr 1
    unfold sizeMod
    omega

/-- Frames of a sine, in `size_t` arithmetic: frame number `k` (counted from 1) is
computed from the phase index `k` modulo `2 ^ 64` and `n` frames leave the counter at
`n` modulo `2 ^ 64`. -/
theorem sine_counter_mod (E : Externals) (s : Emulator) (as : List Arrival)
    (hen : s.disable_ = false) (ht : s.type_ = 6)
    (hc : s.periodCounter_ = 0) (hgood : ∀ a ∈ as, a.good E) :
    (∀ k a, as[k]? = some a → ∃ o, (feed E s as)[k]? = some o ∧
      (∀ i, i < numChannels E a → readSample E o.bytes i =
        toFw (E.sinSample s.amplitude_ ((k + 1) % sizeMod) ((2 * s.period_) % sizeMod) s.offset_))
      ∧ o.state.periodCounter_ = (k + 1) % sizeMod)
    ∧ clearDrop (after E s as) = clearDrop (withCounter s (as.length % sizeMod)) := by
  have hpc : s.periodCounter_ < sizeMod := by rw [hc]; decide
  have hfin : clearDrop (after E s as) = clearDrop (withCounter s (as.length % sizeMod)) := by
    have h := after_sine E as s hen ht hgood hpc
    rw [hc, Nat.zero_add] at h
    exact h
  refine ⟨?_, hfin⟩
  intro k a hk
  have hkl : k < as.length := (List.getElem?_eq_some.1 hk).1
  have ha : a.good E := hgood a (List.getElem?_mem hk)
  have hst := after_sine E (as.take k) s hen ht
    (fun b hb => hgood b (List.mem_of_mem_take hb)) hpc
  rw [List.length_take, hc, Nat.zero_add, Nat.min_eq_left (by omega)] at hst
  obtain ⟨f1, f2, f3, f4, f5, f6⟩ := clearDrop_fields _ _ hst
  simp only [withCounter] at f1 f2 f3 f4 f5 f6
  have hen2 : (after E s (as.take k)).disable_ = false := by rw [f1]; exact hen
  have ht2 : (after E s (as.take k)).type_ = 6 := by rw [f2]; exact ht
  refine ⟨_, feed_getElem? E as s k a hk, fun i hi => ?_, ?_⟩
  · rw [sine_frame E _ a i hen2 ht2 ha hi, f3, f4, f5, f6]
    congr 2
    unfold sizeMod
    omega
  · rw [sine_step E _ a hen2 ht2 ha, f6]
    show (k % sizeMod + 1) % sizeMod = (k + 1) % sizeMod
    unfold sizeMod
    omega

/-- C15. With the emulator enabled, the type Sine and the counter at 0, processing `n`
frames that are single buffers of the right size, `n` a number of frames that a
`size_t` can count, computes frame number `k` (counted from 1, so index `k - 1` of the
run) from the phase index `k`: the first frame from 1 and not from 0. Afterwards the
counter is `n` and the configuration is as it was: the generator neither wraps nor
resets the counter, also when `n ≥ 2 * period`. -/
theorem sine_counter (E : Externals) (s : Emulator) (as : List Arrival)
    (hen : s.disable_ = false) (hty : s.type_ = SignalType.Sine.toInt)
    (hc : s.periodCounter_ = 0) (hgood : ∀ a ∈ as, a.good E)
    (hn : as.length < sizeMod) :
    (∀ k a, as[k]? = some a → ∃ o, (feed E s as)[k]? = some o ∧
      (∀ i, i < numChannels E a → readSample E o.bytes i =
        toFw (E.sinSample s.amplitude_ (k + 1) ((2 * s.period_) % sizeMod) s.offset_))
      ∧ o.state.periodCounter_ = k + 1)
    ∧ (after E s as).periodCounter_ = as.length
    ∧ clearDrop (after E s as) = clearDrop (withCounter s as.length) := by
  obtain ⟨hframes, hfin⟩ := sine_counter_mod E s as hen hty hc hgood
  rw [Nat.mod_eq_of_lt hn] at hfin
  refine ⟨?_, (clearDrop_fields _ _ hfin).2.2.2.2.2, hfin⟩
  intro k a hk
  have hkl : k < as.length := (List.getElem?_eq_some.1 hk).1
  obtain ⟨o, ho, hval, hcnt⟩ := hframes k a hk
  rw [Nat.mod_eq_of_lt (by omega)] at hval hcnt
  exact ⟨o, ho, hval, hcnt⟩

set_option maxRecDepth 100000 in
/-- Witness of C15: amplitude 1000, offset 0, period 1 and five frames of 1 channel:
the counter is 5 afterwards, beyond `2 * period = 2`. -/
theorem sine_counter_witness :
    ((∀ k a, (List.replicate 5 (benchFrame 1 5))[k]? = some a →
        ∃ o, (feed bench (configured 6 1000 0 1) (List.replicate 5 (benchFrame 1 5)))[k]? = some o ∧
        (∀ i, i < numChannels bench a → readSample bench o.bytes i =
          toFw (bench.sinSample 1000 (k + 1) ((2 * 1) % sizeMod) 0))
        ∧ o.state.periodCounter_ = k + 1)
      ∧ (after bench (configured 6 1000 0 1) (List.replicate 5 (benchFrame 1 5))).periodCounter_
          = (List.replicate 5 (benchFrame 1 5)).length
      ∧ clearDrop (after bench (configured 6 1000 0 1) (List.replicate 5 (benchFrame 1 5)))
          = clearDrop (withCounter (configured 6 1000 0 1)
              (List.replicate 5 (benchFrame 1 5)).length))
    ∧ (feed bench (configured 6 1000 0 1) (List.replicate 5 (benchFrame 1 5))).map
        (fun o => o.state.periodCounter_) = [1, 2, 3, 4, 5] :=
  ⟨sine_counter bench (configured 6 1000 0 1) (List.replicate 5 (benchFrame 1 5))
      rfl rfl rfl
      (fun a ha => by rw [List.eq_of_mem_replicate ha]; exact benchFrame_good 1 5 (by decide))
      (by decide),
    by decide⟩


/-! ## C16: the sawtooth formula -/

/-- Where the `size_t` arithmetic stays in range, the sawtooth sample at counter `c` is
`offset + c * amplitude / (2 * period - 1)` converted to the sample type. -/
theorem sawtoothSample_wrapped (s : Emulator) (hp : 1 ≤ s.period_)
    (hc : s.periodCounter_ < 2 * s.period_)
    (hP : 2 * s.period_ * s.amplitude_ < sizeMod) (hP2 : 2 * s.period_ < sizeMod) :
    sawtoothSample s
      = toFw (s.offset_ + ((s.periodCounter_ * s.amplitude_ / (2 * s.period_ - 1) : Nat) : Int)) := by
  unfold sawtoothSample
  rw [sawtoothDivisor_eq s hp hP2]
  have hmul : s.periodCounter_ * s.amplitude_ ≤ (2 * s.period_ - 1) * s.amplitude_ :=
    Nat.mul_le_mul_right _ (by omega)
  have hmul2 : (2 * s.period_ - 1) * s.amplitude_ ≤ 2 * s.period_ * s.amplitude_ :=
    Nat.mul_le_mul_right _ (by omega)
  have hlt : s.periodCounter_ * s.amplitude_ < sizeMod := by omega
  rw [Nat.mod_eq_of_lt hlt]
  generalize s.periodCounter_ * s.amplitude_ / (2 * s.period_ - 1) = q
  unfold toFw toSize sizeMod
  omega

/-- C16, as amended. With the emulator enabled, the type Sawtooth, an amplitude of at
least 1 and a period `P ≥ 1` with `2 * P * amplitude` below the range of `size_t`, the
frame generated at `periodCounter_ = c` with `c < 2 * P` holds in every channel
`offset + c * amplitude / (2 * P - 1)` (the quotient rounded down) converted to the
sample type: `offset` for the first frame of a cycle (`c = 0`) and `offset + amplitude`
for the last (`c = 2 * P - 1`). The conversion changes no value that lies in the
sample range. -/
theorem sawtooth_closed_form (E : Externals) (s : Emulator) (a : Arrival)
    (hen : s.disable_ = false) (hty : s.type_ = SignalType.Sawtooth.toInt)
    (ha1 : 1 ≤ s.amplitude_) (hp : 1 ≤ s.period_)
    (hP : 2 * s.period_ * s.amplitude_ < sizeMod)
    (hc : s.periodCounter_ < 2 * s.period_) (ha : a.good E) :
    (∀ i, i < numChannels E a → readSample E (acceptFrame E s a).bytes i
      = toFw (s.offset_ + ((s.periodCounter_ * s.amplitude_ / (2 * s.period_ - 1) : Nat) : Int)))
    ∧ (s.periodCounter_ = 0 → ∀ i, i < numChannels E a →
        readSample E (acceptFrame E s a).bytes i = toFw s.offset_)
    ∧ (s.periodCounter_ = 2 * s.period_ - 1 → ∀ i, i < numChannels E a →
        readSample E (acceptFrame E s a).bytes i = toFw (s.offset_ + s.amplitude_))
    ∧ (s.dropFrame_ = false → (acceptFrame E s a).sent = [(acceptFrame E s a).bytes])
    ∧ (∀ x : Int, -32768 ≤ x → x < 32768 → toFw x = x) := by
  have ht : s.type_ = 4 := hty
  have hP2 : 2 * s.period_ < sizeMod := by
    have : 2 * s.period_ * 1 ≤ 2 * s.period_ * s.amplitude_ := Nat.mul_le_mul_left _ ha1
    omega
  have hall : ∀ i, i < numChannels E a → readSample E (acceptFrame E s a).bytes i
      = toFw (s.offset_ + ((s.periodCounter_ * s.amplitude_ / (2 * s.period_ - 1) : Nat) : Int)) :=
    fun i hi => by
      rw [sawtooth_frame E s a i hen ht ha hi, sawtoothSample_wrapped s hp hc hP hP2]
  refine ⟨hall, fun h0 i hi => ?_, fun hl i hi => ?_,
    fun hd => wave_sent E s a hen ha hd (Or.inr (Or.inl ht)), toFw_of_range⟩
  · rw [hall i hi, h0]
    simp
  · rw [hall i hi, hl, Nat.mul_div_cancel_left _ (by omega : 0 < 2 * s.period_ - 1)]

set_option maxRecDepth 100000 in
/-- Witness of C16: amplitude 10, offset 0, period 3, at counter 2, where the sample is
`2 * 10 / 5 = 4`. -/
theorem sawtooth_closed_form_witness :
    ((∀ i, i < numChannels bench (benchFrame 3 5) →
        readSample bench (acceptFrame bench (withCounter (configured 4 10 0 3) 2) (benchFrame 3 5)).bytes i
          = toFw (0 + ((2 * 10 / (2 * 3 - 1) : Nat) : Int)))
      ∧ ((2 : Nat) = 0 → ∀ i, i < numChannels bench (benchFrame 3 5) →
          readSample bench (acceptFrame bench (withCounter (configured 4 10 0 3) 2) (benchFrame 3 5)).bytes i
            = toFw 0)
      ∧ ((2 : Nat) = 2 * 3 - 1 → ∀ i, i < numChannels bench (benchFrame 3 5) →
          readSample bench (acceptFrame bench (withCounter (configured 4 10 0 3) 2) (benchFrame 3 5)).bytes i
            = toFw (0 + (10 : Nat)))
      ∧ (false = false →
          (acceptFrame bench (withCounter (configured 4 10 0 3) 2) (benchFrame 3 5)).sent
            = [(acceptFrame bench (withCounter (configured 4 10 0 3) 2) (benchFrame 3 5)).bytes])
      ∧ (∀ x : Int, -32768 ≤ x → x < 32768 → toFw x = x))
    ∧ channels (acceptFrame bench (withCounter (configured 4 10 0 3) 2) (benchFrame 3 5)).bytes 3
      = [4, 4, 4] :=
  ⟨sawtooth_closed_form bench (withCounter (configured 4 10 0 3) 2) (benchFrame 3 5)
      rfl rfl (by decide) (by decide) (by decide) (by decide)
      (benchFrame_good 3 5 (by decide)),
    by decide⟩

set_option maxRecDepth 100000 in
/-- Counterexample to C16 as stated: amplitude 4, offset 0 and period `2 ^ 62`. At
counter `c = 2 ^ 62` the product `c * amplitude` is `2 ^ 64`, which is 0 in `size_t`:
the frame holds 0 in every channel, whereas `offset + c * amplitude / (2 * P - 1)`
is 2. -/
theorem sawtooth_closed_form_counterexample :
    ((feed bench (configured 4 4 0 (2 ^ 62)) (List.replicate (2 ^ 63) (benchFrame 3 5)))[2 ^ 62]?).map
        (fun o => channels o.bytes 3) = some [0, 0, 0]
    ∧ toFw (0 + ((2 ^ 62 * 4 / (2 * 2 ^ 62 - 1) : Nat) : Int)) = 2
    ∧ 2 ^ 62 < 2 * 2 ^ 62 := by
  refine ⟨?_, by decide, by decide⟩
  rw [feed_replicate_cycle bench (configured 4 4 0 (2 ^ 62)) (benchFrame 3 5) (2 ^ 63) (2 ^ 62)
    rfl (Or.inr (Or.inl rfl)) rfl rfl (benchFrame_good 3 5 (by decide))
    (by decide) (by decide) (by decide)]
  decide

/-! ## C19: the divisors -/

theorem reachable_period_lt (E : Externals) (s : Emulator) (h : Reachable E s) :
    s.period_ < sizeMod := by
  induction h with
  | create => show 1 < sizeMod; decide
  | setDisable s d _ ih => exact ih
  | setType s v _ _ _ ih =>
    unfold setType
    split
    · exact ih
    · exact ih
  | setAmplitude s v _ _ ih =>
    unfold setAmplitude
    split
    · exact ih
    · exact ih
  | setOffset s v _ _ _ ih => exact ih
  | setPeriod s v hv _ ih =>
    unfold setPeriod
    split
    · exact hv
    · exact ih
  | acceptFrame s a hr ih =>
    rw [(acceptFrame_fields E s a (reachable_dropFrame E s hr)).2.2.2.2]
    exact ih

/-- C19. In every reachable state the divisors of the generators are not zero: the
divisor `2 * period_ - 1` of the sawtooth formula and the divisor `period_` of the
triangle formula, both as `size_t` values, that is modulo `2 ^ 64`. -/
theorem divisors_nonzero (E : Externals) (s : Emulator) (hr : Reachable E s) :
    sawtoothDivisor s ≠ 0 ∧ triangleDivisor s ≠ 0 := by
  have h1 := reachable_period E s hr
  have h2 := reachable_period_lt E s hr
  unfold sawtoothDivisor triangleDivisor sizeMod at *
  omega

/-- Witness of C19: the largest period a `size_t` holds, `2 ^ 64 - 1`, for which
`2 * period_` wraps: the sawtooth divisor is `2 ^ 64 - 3`. -/
theorem divisors_nonzero_witness :
    (sawtoothDivisor (setPeriod (create bench) (2 ^ 64 - 1)) ≠ 0
      ∧ triangleDivisor (setPeriod (create bench) (2 ^ 64 - 1)) ≠ 0)
    ∧ sawtoothDivisor (setPeriod (create bench) (2 ^ 64 - 1)) = 2 ^ 64 - 3 :=
  ⟨divisors_nonzero bench (setPeriod (create bench) (2 ^ 64 - 1))
      (Reachable.setPeriod _ _ (by decide) Reachable.create),
    by decide⟩


/-! ## C17: what a call does to the frame -/

/-- The buffer that the `switch` of `acceptFrame` leaves is the frame as it came or
the frame after a loop over the samples of the accessor. -/
theorem dispatch_bytes_cases (E : Externals) (s : Emulator) (a : Arrival) :
    (dispatch E s a).2 = a.bytes ∨
    ∃ f, (dispatch E s a).2 = writeEach E a.bytes f (numChannels E a) := by
  unfold dispatch
  split
  · exact Or.inr ⟨_, fill_eq_writeEach _ _ _ _⟩
  · exact Or.inr ⟨_, genChannelNumberWave_eq_writeEach _ _ _⟩
  · exact Or.inr ⟨_, genRandomWave_eq_writeEach _ _ _ _⟩
  · exact Or.inr ⟨_, fill_eq_writeEach _ _ _ _⟩
  · exact Or.inr ⟨_, fill_eq_writeEach _ _ _ _⟩
  · exact Or.inr ⟨_, fill_eq_writeEach _ _ _ _⟩
  · exact Or.inr ⟨_, fill_eq_writeEach _ _ _ _⟩
  · exact Or.inl rfl
  · exact Or.inl rfl
  · exact Or.inl rfl

theorem acceptFrame_bytes_cases (E : Externals) (s : Emulator) (a : Arrival) :
    (acceptFrame E s a).bytes = a.bytes ∨
    ∃ f, (acceptFrame E s a).bytes = writeEach E a.bytes f (numChannels E a) := by
  unfold acceptFrame
  split
  · split
    · exact Or.inl rfl
    · split
      · exact Or.inl rfl
      · rw [finish_bytes]
        exact dispatch_bytes_cases E s a
  · rw [finish_bytes]
    exact Or.inl rfl

/-- C17. For every emulator state, whatever the signal type, and every frame,
`acceptFrame` leaves the length of the frame and its first `SmurfHeaderSize` bytes as
they were, and every byte it changes lies in the `numChannels` two-byte slots that
follow the header; a frame that a disabled emulator passes on, or that is rejected, is
not changed at all. -/
theorem frame_effect (E : Externals) (s : Emulator) (a : Arrival) :
    (acceptFrame E s a).bytes.length = a.bytes.length
    ∧ (acceptFrame E s a).bytes.take E.SmurfHeaderSize = a.bytes.take E.SmurfHeaderSize
    ∧ (∀ j, (j < E.SmurfHeaderSize ∨ E.SmurfHeaderSize + 2 * numChannels E a ≤ j) →
        (acceptFrame E s a).bytes[j]? = a.bytes[j]?)
    ∧ ((s.disable_ = true ∨ a.singleBuffer = false ∨ sizeOk E a = false) →
        (acceptFrame E s a).bytes = a.bytes) := by
  have houtside : ∀ j, (j < E.SmurfHeaderSize ∨ E.SmurfHeaderSize + 2 * numChannels E a ≤ j) →
      (acceptFrame E s a).bytes[j]? = a.bytes[j]? := by
    intro j hj
    rcases acceptFrame_bytes_cases E s a with h | ⟨f, h⟩
    · rw [h]
    · rw [h, getElem?_writeEach, if_neg (by omega)]
  refine ⟨?_, ?_, houtside, ?_⟩
  · rcases acceptFrame_bytes_cases E s a with h | ⟨f, h⟩
    · rw [h]
    · rw [h, writeEach_length]
  · apply List.ext_getElem?
    intro j
    rw [List.getElem?_take, List.getElem?_take]
    split
    · next hj => exact houtside j (Or.inl hj)
    · rfl
  · intro h
    unfold acceptFrame
    rcases h with h | h | h
    · rw [if_neg (by simp [h]), finish_bytes]
    · split
      · rfl
      · rw [finish_bytes]
    · split
      · split
        · rfl
        · rfl
      · rw [finish_bytes]


/-! ## C18: the drop flag -/

/-- With the drop flag clear, an enabled emulator keeps back a frame it has taken to
the generators exactly when the type is DropFrame and the incremented counter has
reached `2 * period_`, both in `size_t` arithmetic. -/
theorem suppressed_iff (E : Externals) (s : Emulator) (a : Arrival)
    (hen : s.disable_ = false) (ha : a.good E) (hd : s.dropFrame_ = false) :
    (acceptFrame E s a).sent = [] ↔
      (s.type_ = 7 ∧ (2 * s.period_) % sizeMod ≤ (s.periodCounter_ + 1) % sizeMod) := by
  by_cases h7 : s.type_ = 7
  · rw [acceptFrame_enabled E s a hen ha]
    have hdis : dispatch E s a = (genFrameDrop s, a.bytes) := by
      simp [dispatch, h7, SignalType.ofInt]
    rw [hdis]
    unfold genFrameDrop finish
    simp only []
    by_cases hc : (2 * s.period_) % sizeMod ≤ (s.periodCounter_ + 1) % sizeMod
    · simp [hc, h7]
    · simp [hc, h7, hd]
  · rw [sent_of_not_drop E s a hen ha hd h7]
    simp [h7]

/-- C18, as amended. In every reachable state the drop flag is clear, and it is clear
again after every call of `acceptFrame`: it is set only inside the call that clears it.
So an enabled emulator keeps back a frame that is a single buffer of the right size if
and only if the type is DropFrame and `periodCounter_ + 1 ≥ 2 * period_` holds in
`size_t` arithmetic, that is between the two values modulo `2 ^ 64`; every other such
frame is sent on. When `2 * period_` is below `2 ^ 64` this is the comparison of the
numbers themselves. -/
theorem drop_flag_clear (E : Externals) (s : Emulator) (hr : Reachable E s) :
    s.dropFrame_ = false
    ∧ (∀ a, (acceptFrame E s a).state.dropFrame_ = false)
    ∧ (∀ a, s.disable_ = false → a.good E →
        ((acceptFrame E s a).sent = [] ↔
          (s.type_ = SignalType.DropFrame.toInt
            ∧ (s.periodCounter_ + 1) % sizeMod ≥ (2 * s.period_) % sizeMod))
        ∧ ((acceptFrame E s a).sent = [] ∨
            (acceptFrame E s a).sent = [(acceptFrame E s a).bytes]))
    ∧ (2 * s.period_ < sizeMod → ∀ a, s.disable_ = false → a.good E →
        ((acceptFrame E s a).sent = [] ↔
          (s.type_ = SignalType.DropFrame.toInt
            ∧ s.periodCounter_ + 1 ≥ 2 * s.period_))) := by
  have hd := reachable_dropFrame E s hr
  refine ⟨hd, fun a => acceptFrame_dropFrame E s a hd, fun a hen ha => ⟨?_, ?_⟩,
    fun hP a hen ha => ?_⟩
  · exact suppressed_iff E s a hen ha hd
  · by_cases h7 : s.type_ = 7
    · rw [acceptFrame_enabled E s a hen ha, finish_bytes]
      unfold finish
      split
      · exact Or.inl rfl
      · exact Or.inr rfl
    · exact Or.inr (sent_of_not_drop E s a hen ha hd h7)
  · rw [suppressed_iff E s a hen ha hd]
    show (s.type_ = 7 ∧ _) ↔ (s.type_ = 7 ∧ _)
    constructor
    · rintro ⟨h7, hc⟩
      have hlt := reachable_counter E s hr (by rw [h7]; decide)
      refine ⟨h7, ?_⟩
      unfold sizeMod at *
      omega
    · rintro ⟨h7, hc⟩
      have hlt := reachable_counter E s hr (by rw [h7]; decide)
      refine ⟨h7, ?_⟩
      unfold sizeMod at *
      omega

set_option maxRecDepth 100000 in
/-- Witness of C18: an emulator set to DropFrame with period 1 that has been given one
frame (counter 1) keeps the next frame back. -/
theorem drop_flag_clear_witness :
    (midDrop.dropFrame_ = false
      ∧ (∀ a, (acceptFrame bench midDrop a).state.dropFrame_ = false)
      ∧ (∀ a, midDrop.disable_ = false → a.good bench →
          ((acceptFrame bench midDrop a).sent = [] ↔
            (midDrop.type_ = SignalType.DropFrame.toInt
              ∧ (midDrop.periodCounter_ + 1) % sizeMod ≥ (2 * midDrop.period_) % sizeMod))
          ∧ ((acceptFrame bench midDrop a).sent = [] ∨
              (acceptFrame bench midDrop a).sent = [(acceptFrame bench midDrop a).bytes]))
      ∧ (2 * midDrop.period_ < sizeMod → ∀ a, midDrop.disable_ = false → a.good bench →
          ((acceptFrame bench midDrop a).sent = [] ↔
            (midDrop.type_ = SignalType.DropFrame.toInt
              ∧ midDrop.periodCounter_ + 1 ≥ 2 * midDrop.period_))))
    ∧ midDrop.periodCounter_ = 1
    ∧ (acceptFrame bench midDrop (benchFrame 3 5)).sent = [] :=
  ⟨drop_flag_clear bench midDrop
      (Reachable.acceptFrame _ _
        (Reachable.setType _ 7 (by decide) (by decide)
          (Reachable.setDisable _ false Reachable.create))),
    by decide, by decide⟩

set_option maxRecDepth 100000 in
/-- Counterexample to C18 as stated: constructed, `setPeriod(2 ^ 63)`, `setType(7)`,
enabled. The state is reachable, the counter is 0 and `2 * period` is `2 ^ 64`, so
`periodCounter + 1 ≥ 2 * period` does not hold; yet the frame is kept back, because
`2 * period_` is 0 in `size_t`. -/
theorem drop_flag_counterexample :
    Reachable bench dropAlways
    ∧ dropAlways.disable_ = false
    ∧ (benchFrame 3 5).good bench
    ∧ (acceptFrame bench dropAlways (benchFrame 3 5)).sent = []
    ∧ ¬ (dropAlways.periodCounter_ + 1 ≥ 2 * dropAlways.period_) :=
  ⟨Reachable.setDisable _ false
      (Reachable.setType _ 7 (by decide) (by decide)
        (Reachable.setPeriod _ (2 ^ 63) (by decide) Reachable.create)),
    by decide, benchFrame_good 3 5 (by decide), by decide, by decide⟩


/-! ## C20: the payload that comes in does not matter -/

theorem numChannels_congr (E : Externals) (a b : Arrival)
    (hh : a.bytes.take E.SmurfHeaderSize = b.bytes.take E.SmurfHeaderSize) :
    numChannels E a = numChannels E b := by
  unfold numChannels
  rw [hh]

/-- Two buffers with the same header and the same `n` slots after it are the same
buffer after a loop that writes all `n` slots. -/
theorem writeEach_congr (E : Externals) (m1 m2 : List Nat) (f : Nat → Int) (n : Nat)
    (hh : m1.take E.SmurfHeaderSize = m2.take E.SmurfHeaderSize)
    (h1 : E.SmurfHeaderSize + 2 * n = m1.length) (h2 : E.SmurfHeaderSize + 2 * n = m2.length) :
    writeEach E m1 f n = writeEach E m2 f n := by
  apply List.ext_getElem?
  intro j
  rw [getElem?_writeEach, getElem?_writeEach]
  by_cases hj : j < E.SmurfHeaderSize
  · rw [if_neg (by omega), if_neg (by omega)]
    have e1 := @List.getElem?_take_of_lt _ m1 E.SmurfHeaderSize j hj
    have e2 := @List.getElem?_take_of_lt _ m2 E.SmurfHeaderSize j hj
    rw [← e1, ← e2, hh]
  · by_cases hl : j < m1.length
    · rw [if_pos (by omega), if_pos (by omega)]
    · rw [if_neg (by omega), if_neg (by omega),
        List.getElem?_eq_none (by omega), List.getElem?_eq_none (by omega)]

/-- For the six signal types that write from the configuration and the counter, the
`switch` of `acceptFrame` leaves a state that the frame has no part in, and a buffer in
which slot `i` holds `waveValue E s i`. -/
theorem dispatch_wave (E : Externals) (s : Emulator) (a : Arrival)
    (ht : s.type_ = 0 ∨ s.type_ = 1 ∨ s.type_ = 3 ∨ s.type_ = 4 ∨ s.type_ = 5 ∨ s.type_ = 6) :
    (dispatch E s a).2 = writeEach E a.bytes (waveValue E s) (numChannels E a)
    ∧ (dispatch E s a).1 = (dispatch E s ⟨[], true, fun _ => 0⟩).1
    ∧ ∀ i, toFw (waveValue E s i) = waveValue E s i := by
  rcases ht with h | h | h | h | h | h
  · have hw : waveValue E s = fun _ => 0 := by
      funext i; simp [waveValue, h, SignalType.ofInt]
    rw [hw]
    refine ⟨?_, ?_, fun _ => rfl⟩
    · simp [dispatch, h, SignalType.ofInt, genZeroWave, fill_eq_writeEach]
    · simp [dispatch, h, SignalType.ofInt]
  · have hw : waveValue E s = fun (i : Nat) => toFw (i : Int) := by
      funext i; simp [waveValue, h, SignalType.ofInt]
    rw [hw]
    refine ⟨?_, ?_, fun i => toFw_toFw _⟩
    · simp [dispatch, h, SignalType.ofInt, genChannelNumberWave_eq_writeEach]
    · simp [dispatch, h, SignalType.ofInt]
  · have hw : waveValue E s = fun _ => squareSample s := by
      funext i; simp [waveValue, h, SignalType.ofInt]
    rw [hw]
    refine ⟨?_, ?_, fun i => ?_⟩
    · simp [dispatch, h, SignalType.ofInt, genSquareWave, fill_eq_writeEach]
    · simp [dispatch, h, SignalType.ofInt, genSquareWave]
    · unfold squareSample
      split <;> exact toFw_toFw _
  · have hw : waveValue E s = fun _ => sawtoothSample s := by
      funext i; simp [waveValue, h, SignalType.ofInt]
    rw [hw]
    refine ⟨?_, ?_, fun i => toFw_toFw _⟩
    · simp [dispatch, h, SignalType.ofInt, getSawtoothWave, fill_eq_writeEach]
    · simp [dispatch, h, SignalType.ofInt, getSawtoothWave]
  · have hw : waveValue E s = fun _ => triangleSample s := by
      funext i; simp [waveValue, h, SignalType.ofInt]
    rw [hw]
    refine ⟨?_, ?_, fun i => toFw_toFw _⟩
    · simp [dispatch, h, SignalType.ofInt, genTriangleWave, fill_eq_writeEach]
    · simp [dispatch, h, SignalType.ofInt, genTriangleWave]
  · have hw : waveValue E s = fun _ =>
        toFw (E.sinSample s.amplitude_ ((s.periodCounter_ + 1) % sizeMod)
          ((2 * s.period_) % sizeMod) s.offset_) := by
      funext i; simp [waveValue, h, SignalType.ofInt]
    rw [hw]
    refine ⟨?_, ?_, fun i => toFw_toFw _⟩
    · simp [dispatch, h, SignalType.ofInt, genSinWave, fill_eq_writeEach]
    · simp [dispatch, h, SignalType.ofInt, genSinWave]

/-- Payload independence for the members of `SignalType` other than Random and
DropFrame. For every emulator state that is enabled with one of the types Zeros,
ChannelNumber, Square, Sawtooth, Triangle and Sine, and every two frames that are
single buffers of the right size with the same header bytes, `acceptFrame` has the same
outcome for both: the same bytes in the buffer, the same list of buffers sent and the
same emulator afterwards. Slot `i` of the buffer holds `waveValue E s i`, which is
computed from the emulator and the slot index alone. -/
theorem payload_independence (E : Externals) (s : Emulator) (a b : Arrival)
    (hen : s.disable_ = false)
    (ht : s.type_ = SignalType.Zeros.toInt ∨ s.type_ = SignalType.ChannelNumber.toInt
      ∨ s.type_ = SignalType.Square.toInt ∨ s.type_ = SignalType.Sawtooth.toInt
      ∨ s.type_ = SignalType.Triangle.toInt ∨ s.type_ = SignalType.Sine.toInt)
    (ha : a.good E) (hb : b.good E)
    (hh : a.bytes.take E.SmurfHeaderSize = b.bytes.take E.SmurfHeaderSize) :
    acceptFrame E s a = acceptFrame E s b
    ∧ (∀ i, i < numChannels E a →
        readSample E (acceptFrame E s a).bytes i = waveValue E s i) := by
  have ht2 : s.type_ = 0 ∨ s.type_ = 1 ∨ s.type_ = 3 ∨ s.type_ = 4 ∨ s.type_ = 5 ∨ s.type_ = 6 := ht
  have hn := numChannels_congr E a b hh
  obtain ⟨ha2, ha1, hfw⟩ := dispatch_wave E s a ht2
  obtain ⟨hb2, hb1, _⟩ := dispatch_wave E s b ht2
  have hbytes : (dispatch E s a).2 = (dispatch E s b).2 := by
    rw [ha2, hb2, ← hn]
    exact writeEach_congr E a.bytes b.bytes _ _ hh (by have := ha.2; omega)
      (by have := hb.2; omega)
  refine ⟨?_, fun i hi => ?_⟩
  · rw [acceptFrame_enabled E s a hen ha, acceptFrame_enabled E s b hen hb, hbytes, ha1, hb1]
  · rw [acceptFrame_enabled E s a hen ha, finish_bytes, ha2,
      readSample_writeEach E a.bytes _ _ i hi (by have := ha.2; omega)]
    exact hfw i

set_option maxRecDepth 100000 in
/-- An instance of `payload_independence`: a triangle of amplitude 10 and period 3, and
two frames of 2 channels with the same header and the payloads `1 2 3 4` and
`9 9 9 9`. Both come out with `10` in both channels. -/
theorem payload_independence_witness :
    (acceptFrame bench triangleReady (payloadFrame 2 [1, 2, 3, 4])
        = acceptFrame bench triangleReady (payloadFrame 2 [9, 9, 9, 9])
      ∧ (∀ i, i < numChannels bench (payloadFrame 2 [1, 2, 3, 4]) →
          readSample bench (acceptFrame bench triangleReady (payloadFrame 2 [1, 2, 3, 4])).bytes i
            = waveValue bench triangleReady i))
    ∧ channels (payloadFrame 2 [1, 2, 3, 4]).bytes 2 = [513, 1027]
    ∧ channels (payloadFrame 2 [9, 9, 9, 9]).bytes 2 = [2313, 2313]
    ∧ channels (acceptFrame bench triangleReady (payloadFrame 2 [1, 2, 3, 4])).bytes 2 = [10, 10] :=
  ⟨payload_independence bench triangleReady (payloadFrame 2 [1, 2, 3, 4])
      (payloadFrame 2 [9, 9, 9, 9]) (by decide) (by decide) ⟨rfl, by decide⟩ ⟨rfl, by decide⟩
      (by decide),
    by decide, by decide, by decide⟩

set_option maxRecDepth 100000 in
/-- C20 fails on the code: `setType(-1)` passes the range check of `setType`, and the
emulator it leaves is reachable, enabled and of a type that is neither Random nor
DropFrame. Its type matches no `case` of the `switch`, so no generator runs: two frames
of 2 channels with the same header and the payloads `1 2 3 4` and `9 9 9 9` are both
sent on as they came, with the channels 513, 1027 and 2313, 2313. -/
theorem payload_passes_with_bad_type :
    Reachable bench badType
    ∧ badType.disable_ = false
    ∧ badType.type_ = -1
    ∧ badType.type_ ≠ SignalType.Random.toInt
    ∧ badType.type_ ≠ SignalType.DropFrame.toInt
    ∧ (payloadFrame 2 [1, 2, 3, 4]).good bench
    ∧ (payloadFrame 2 [9, 9, 9, 9]).good bench
    ∧ (payloadFrame 2 [1, 2, 3, 4]).bytes.take bench.SmurfHeaderSize
        = (payloadFrame 2 [9, 9, 9, 9]).bytes.take bench.SmurfHeaderSize
    ∧ (acceptFrame bench badType (payloadFrame 2 [1, 2, 3, 4])).sent
        = [(payloadFrame 2 [1, 2, 3, 4]).bytes]
    ∧ (acceptFrame bench badType (payloadFrame 2 [9, 9, 9, 9])).sent
        = [(payloadFrame 2 [9, 9, 9, 9]).bytes]
    ∧ channels (acceptFrame bench badType (payloadFrame 2 [1, 2, 3, 4])).bytes 2 = [513, 1027]
    ∧ channels (acceptFrame bench badType (payloadFrame 2 [9, 9, 9, 9])).bytes 2 = [2313, 2313] :=
  ⟨Reachable.setType _ (-1) (by decide) (by decide)
      (Reachable.setDisable _ false Reachable.create),
    by decide, by decide, by decide, by decide, ⟨rfl, by decide⟩, ⟨rfl, by decide⟩,
    by decide, by decide, by decide, by decide, by decide⟩

end StreamDataEmulator
